import Mathlib

/-!
Verification of SpeakMyBook's chapter-to-audio pipeline.

This file gives a shallow embedding, in Lean 4, of the core conversion code of
`src/python/app.pyw` (the subtitle formatter `convert_srt_to_lrc`, the retrying
synthesis job `process_text_to_mp3`, the metadata tagger `update_mp3_tag`, the
orchestrator threads `_convert_single_chapter_thread` / `_generate_ebook_thread`
and the request handlers `convert_chapter_to_mp3` / `start_generate_ebook`),
and proves the specified properties of those functions.

Modelling conventions:
* Python strings are Lean `String`s; `len` counts code points in both.
* `str.strip()` is `pyStrip` and `str.split(sep)` is `pySplitOn`, defined
  below by structural recursion so every definition evaluates inside the
  kernel (ASCII whitespace; the texts the claims quantify over only use
  ASCII whitespace).
* Python's stable `list.sort(key=...)` is `List.insertionSort`, which is the
  stable sort by the same key.
* Python's arbitrary-exception control flow is explicit: a fallible external
  action is an oracle value (`Option`/`Except`/`Bool`) and the `try/except`
  structure of the code becomes a `match` on that oracle.
* Side effects that the claims mention (queue messages, dialogs, sleeps,
  provider contact) are reified as events accumulated in a list, in the
  order the code performs them.
-/

/-! ### String primitives: Python `str.strip` and `str.split` -/

/-- ASCII whitespace, the characters `str.strip()` removes in the inputs the
claims quantify over. -/
def isSpace (c : Char) : Bool := c == ' ' || c == '\t' || c == '\n' || c == '\r'

/-- Embedding of Python `s.strip()`: drop whitespace from both ends. -/
def pyStrip (s : String) : String :=
  String.mk (((s.data.dropWhile isSpace).reverse.dropWhile isSpace).reverse)

/-- Worker for `str.split(sep)` with a non-empty separator: scan left to
right, splitting at each leftmost non-overlapping occurrence of `sep`.
`fuel` bounds the recursion; each step consumes at least one character, so
`fuel = length of the input` suffices and the fuel-exhausted case is never
reached on the intended calls. -/
def pySplitAux (sep : List Char) : Nat → List Char → List Char → List (List Char)
  | _, [], acc => [acc.reverse]
  | 0, cs, acc => [acc.reverse ++ cs]
  | fuel + 1, c :: rest, acc =>
    if sep.isPrefixOf (c :: rest) then
      acc.reverse :: pySplitAux sep fuel (List.drop (sep.length - 1) rest) []
    else
      pySplitAux sep fuel rest (c :: acc)

/-- Embedding of Python `s.split(sep)` for a non-empty separator. -/
def pySplitOn (s sep : String) : List String :=
  (pySplitAux sep.data s.data.length s.data []).map String.mk

/-! ### Subtitle formatter: `convert_srt_to_lrc` (app.pyw lines 385-420) -/

/-- Ordering of timed fragments by millisecond offset, the sort key of
`all_items.sort(key=lambda x: x[0])`. -/
def offsetLe (a b : Nat × String) : Prop := a.1 ≤ b.1

instance : DecidableRel offsetLe := fun a b => Nat.decLe a.1 b.1

instance : IsTrans (Nat × String) offsetLe := ⟨fun _ _ _ => Nat.le_trans⟩

instance : IsTotal (Nat × String) offsetLe := ⟨fun a b => Nat.le_total a.1 b.1⟩

/-- Embedding of `all_items.sort(key=lambda x: x[0])`: Python's sort is stable,
and `List.insertionSort` is the stable sort by the same key. -/
def sortByOffset (l : List (Nat × String)) : List (Nat × String) :=
  List.insertionSort offsetLe l

/-- Embedding of the merge loop of `convert_srt_to_lrc` (lines 400-412).
State: `buf` is `current_text`, `cur` is `current_time`.  A fragment's text is
appended to the buffer (taking the fragment's time when the buffer was empty);
the buffer is flushed as one lyric line when its length reaches `cpl` or the
fragment is the last, and empty buffers are never flushed. -/
def mergeItems (cpl : Nat) : List (Nat × String) → String → Nat → List (Nat × String)
  | [], _, _ => []
  | (t, s) :: rest, buf, cur =>
    if cpl ≤ (buf ++ s).length ∨ rest = [] then
      (if buf ++ s = "" then [] else [((if buf = "" then t else cur), buf ++ s)]) ++
        mergeItems cpl rest "" 0
    else
      mergeItems cpl rest (buf ++ s) (if buf = "" then t else cur)

lemma mergeItems_nil (cpl : Nat) (buf : String) (cur : Nat) :
    mergeItems cpl [] buf cur = [] := rfl

lemma mergeItems_cons (cpl : Nat) (t : Nat) (s : String) (rest : List (Nat × String))
    (buf : String) (cur : Nat) :
    mergeItems cpl ((t, s) :: rest) buf cur =
      if cpl ≤ (buf ++ s).length ∨ rest = [] then
        (if buf ++ s = "" then [] else [((if buf = "" then t else cur), buf ++ s)]) ++
          mergeItems cpl rest "" 0
      else
        mergeItems cpl rest (buf ++ s) (if buf = "" then t else cur) := rfl

/-- Concatenation of the text components of a fragment list. -/
def concatTexts (l : List (Nat × String)) : String :=
  l.foldr (fun p acc => p.2 ++ acc) ""

/-- Embedding of Python's `f"{n:02d}"`: decimal digits, zero-padded on the left
to width 2 (wider numbers print all their digits). -/
def pad2 (n : Nat) : String :=
  if n < 10 then "0" ++ toString n else toString n

/-- Embedding of the LRC time tag construction (lines 415-418):
minutes `(ms div 1000) div 60`, seconds `(ms div 1000) mod 60`, centiseconds
`(ms mod 1000) div 10`, each rendered with `f"{x:02d}"`. -/
def lrcTimeTag (ms : Nat) : String :=
  "[" ++ pad2 (ms / 1000 / 60) ++ ":" ++ pad2 (ms / 1000 % 60) ++ "." ++
    pad2 (ms % 1000 / 10) ++ "]"

/-- Embedding of the rendering loop plus the final `'\n'.join(lrc_lines)`
(lines 413-420). -/
def renderLrc (items : List (Nat × String)) : String :=
  String.intercalate "\n" (items.map fun p => lrcTimeTag p.1 ++ p.2)

/-- Numeric value of a decimal digit character (`int` on a matched `\d`). -/
def digitVal (c : Char) : Nat := c.toNat - 48

/-- Attempts to match the regex `(\d{2}):(\d{2}):(\d{2}),(\d{3})` at the head
of the character list, returning the four captured groups as numbers.
`\d` is modelled as an ASCII digit. -/
def timeAt : List Char → Option (Nat × Nat × Nat × Nat)
  | h1 :: h2 :: c1 :: m1 :: m2 :: c2 :: s1 :: s2 :: c3 :: d1 :: d2 :: d3 :: _ =>
    if h1.isDigit ∧ h2.isDigit ∧ c1 = ':' ∧ m1.isDigit ∧ m2.isDigit ∧ c2 = ':' ∧
       s1.isDigit ∧ s2.isDigit ∧ c3 = ',' ∧ d1.isDigit ∧ d2.isDigit ∧ d3.isDigit then
      some (digitVal h1 * 10 + digitVal h2,
            digitVal m1 * 10 + digitVal m2,
            digitVal s1 * 10 + digitVal s2,
            digitVal d1 * 100 + digitVal d2 * 10 + digitVal d3)
    else none
  | _ => none

/-- Embedding of `re.search(r'(\d{2}):(\d{2}):(\d{2}),(\d{3})', time_line)`:
the leftmost match of the fixed-shape pattern. -/
def searchTime : List Char → Option (Nat × Nat × Nat × Nat)
  | [] => none
  | c :: rest =>
    match timeAt (c :: rest) with
    | some r => some r
    | none => searchTime rest

/-- Embedding of the per-block parsing of `convert_srt_to_lrc` (lines 389-398):
a block contributes the item `(time_ms, lines[2])` exactly when it has at least
three lines, a non-blank second line, and a time match on the second line;
otherwise it is discarded (`none`). -/
def parseBlock (b : String) : Option (Nat × String) :=
  match pySplitOn b "\n" with
  | _ :: l1 :: l2 :: _ =>
    if pyStrip l1 = "" then none
    else
      match searchTime l1.data with
      | some (h, m, s, ms) => some ((h * 3600 + m * 60 + s) * 1000 + ms, l2)
      | none => none
  | _ => none

/-- A block survives parsing (is not silently discarded). -/
def validBlock (b : String) : Bool := (parseBlock b).isSome

/-- The body of `convert_srt_to_lrc` after block parsing: sort the items, and
if no items were parsed return `""` (lines 403-404), else merge and render. -/
def lrcFromItems (cpl : Nat) (items : List (Nat × String)) : String :=
  let its := sortByOffset items
  if its = [] then "" else renderLrc (mergeItems cpl its "" 0)

/-- `convert_srt_to_lrc` restricted to an explicit block list. -/
def lrcFromBlocks (cpl : Nat) (blocks : List String) : String :=
  lrcFromItems cpl (blocks.filterMap parseBlock)

/-- Full embedding of `convert_srt_to_lrc(srt_content, chars_per_line)`:
`srt_content.strip().split('\n\n')`, parse blocks, sort, merge, render. -/
def convert_srt_to_lrc (srt : String) (cpl : Nat) : String :=
  lrcFromBlocks cpl (pySplitOn (pyStrip srt) "\n\n")

/-! ### Lemmas about the merge loop -/

lemma string_empty_append (s : String) : "" ++ s = s := by
  cases s with
  | mk data => rfl

lemma string_append_empty (s : String) : s ++ "" = s := by
  cases s with
  | mk data => show String.mk (data ++ []) = String.mk data; rw [List.append_nil]

lemma string_append_assoc (a b c : String) : a ++ b ++ c = a ++ (b ++ c) := by
  cases a with
  | mk da =>
    cases b with
    | mk db =>
      cases c with
      | mk dc =>
        show String.mk (da ++ db ++ dc) = String.mk (da ++ (db ++ dc))
        rw [List.append_assoc]

lemma concatTexts_nil : concatTexts [] = "" := rfl

lemma concatTexts_cons (p : Nat × String) (l : List (Nat × String)) :
    concatTexts (p :: l) = p.2 ++ concatTexts l := rfl

/-- The merge loop emits the buffered text followed by all remaining input
text: no fragment's text is lost or duplicated. -/
lemma mergeItems_concat (cpl : Nat) :
    ∀ (l : List (Nat × String)) (buf : String) (cur : Nat), l ≠ [] →
      concatTexts (mergeItems cpl l buf cur) = buf ++ concatTexts l := by
  intro l
  induction l with
  | nil => intro buf cur h; exact absurd rfl h
  | cons p rest ih =>
    intro buf cur _
    obtain ⟨t, s⟩ := p
    rw [mergeItems_cons, concatTexts_cons]
    by_cases hflush : cpl ≤ (buf ++ s).length ∨ rest = []
    · rw [if_pos hflush]
      have tail : concatTexts (mergeItems cpl rest "" 0) = concatTexts rest := by
        rcases eq_or_ne rest [] with hr | hr
        · subst hr; rw [mergeItems_nil]
        · rw [ih "" 0 hr, string_empty_append]
      by_cases hbe : buf ++ s = ""
      · rw [if_pos hbe, List.nil_append, tail, ← string_append_assoc, hbe,
          string_empty_append]
      · rw [if_neg hbe, List.singleton_append, concatTexts_cons, tail,
          string_append_assoc]
    · rw [if_neg hflush]
      have hrest : rest ≠ [] := fun hr => hflush (Or.inr hr)
      rw [ih (buf ++ s) _ hrest, string_append_assoc]

/-- The start times the merge loop emits are drawn, in order, from the pending
buffer time followed by the input fragments' own times. -/
lemma mergeItems_fst_sublist (cpl : Nat) :
    ∀ (l : List (Nat × String)) (buf : String) (cur : Nat),
      ((mergeItems cpl l buf cur).map Prod.fst).Sublist
        (if buf = "" then l.map Prod.fst else cur :: l.map Prod.fst) := by
  intro l
  induction l with
  | nil =>
    intro buf cur
    rw [mergeItems_nil]
    exact List.nil_sublist _
  | cons p rest ih =>
    intro buf cur
    obtain ⟨t, s⟩ := p
    have target_sub : (rest.map Prod.fst).Sublist
        (if buf = "" then ((t, s) :: rest).map Prod.fst
         else cur :: ((t, s) :: rest).map Prod.fst) := by
      by_cases hbuf : buf = ""
      · rw [if_pos hbuf, List.map_cons]
        exact List.sublist_cons_self _ _
      · rw [if_neg hbuf, List.map_cons]
        exact (List.sublist_cons_self _ _).trans (List.sublist_cons_self _ _)
    rw [mergeItems_cons]
    by_cases hflush : cpl ≤ (buf ++ s).length ∨ rest = []
    · rw [if_pos hflush]
      have tail : ((mergeItems cpl rest "" 0).map Prod.fst).Sublist (rest.map Prod.fst) := by
        have h0 := ih "" 0
        rw [if_pos rfl] at h0
        exact h0
      by_cases hbe : buf ++ s = ""
      · rw [if_pos hbe, List.nil_append]
        exact tail.trans target_sub
      · rw [if_neg hbe, List.singleton_append, List.map_cons]
        by_cases hbuf : buf = ""
        · simp only [if_pos hbuf, List.map_cons]
          exact List.Sublist.cons₂ _ tail
        · simp only [if_neg hbuf, List.map_cons]
          exact List.Sublist.cons₂ _ (tail.trans (List.sublist_cons_self _ _))
    · rw [if_neg hflush]
      have h0 := ih (buf ++ s) (if buf = "" then t else cur)
      by_cases hbs : buf ++ s = ""
      · simp only [if_pos hbs] at h0
        exact h0.trans target_sub
      · simp only [if_neg hbs] at h0
        by_cases hbuf : buf = ""
        · simp only [if_pos hbuf] at h0 ⊢
          simp only [List.map_cons]
          exact h0
        · simp only [if_neg hbuf] at h0 ⊢
          simp only [List.map_cons]
          exact h0.trans (List.Sublist.cons₂ _ (List.sublist_cons_self _ _))

lemma sortByOffset_sorted (l : List (Nat × String)) :
    List.Sorted offsetLe (sortByOffset l) :=
  List.sorted_insertionSort offsetLe l

lemma sortByOffset_perm (l : List (Nat × String)) : (sortByOffset l).Perm l :=
  List.perm_insertionSort offsetLe l

/-- C1: for every finite fragment list and positive `chars_per_line`, the merge
step of `convert_srt_to_lrc` produces lines with non-decreasing start times
whose concatenated text is the concatenation of all input texts in stable
offset-sorted order, and the empty input produces the empty output. -/
theorem merge_step_correct (l : List (Nat × String)) (cpl : Nat) (_hcpl : 0 < cpl) :
    List.Pairwise (· ≤ ·) ((mergeItems cpl (sortByOffset l) "" 0).map Prod.fst)
    ∧ concatTexts (mergeItems cpl (sortByOffset l) "" 0) = concatTexts (sortByOffset l)
    ∧ (sortByOffset l).Perm l
    ∧ (l = [] → mergeItems cpl (sortByOffset l) "" 0 = []) := by
  refine ⟨?_, ?_, sortByOffset_perm l, ?_⟩
  · have hsub := mergeItems_fst_sublist cpl (sortByOffset l) "" 0
    rw [if_pos rfl] at hsub
    have hsorted : List.Pairwise (· ≤ ·) ((sortByOffset l).map Prod.fst) := by
      rw [List.pairwise_map]
      exact sortByOffset_sorted l
    exact List.Pairwise.sublist hsub hsorted
  · cases hs : sortByOffset l with
    | nil => rw [mergeItems_nil]
    | cons q qs =>
      rw [← hs, mergeItems_concat cpl (sortByOffset l) "" 0 (by rw [hs]; simp),
        string_empty_append]
  · intro hl
    subst hl
    rfl

theorem merge_step_correct_witness :
    0 < 2
    ∧ (List.Pairwise (· ≤ ·)
        ((mergeItems 2 (sortByOffset [(300, "b"), (0, "a")]) "" 0).map Prod.fst)
      ∧ concatTexts (mergeItems 2 (sortByOffset [(300, "b"), (0, "a")]) "" 0)
          = concatTexts (sortByOffset [(300, "b"), (0, "a")])
      ∧ (sortByOffset [(300, "b"), (0, "a")]).Perm [(300, "b"), (0, "a")]
      ∧ ([(300, "b"), (0, "a")] = ([] : List (Nat × String)) →
          mergeItems 2 (sortByOffset [(300, "b"), (0, "a")]) "" 0 = [])) :=
  ⟨by decide, merge_step_correct [(300, "b"), (0, "a")] 2 (by decide)⟩

/-! ### Rendering and block parsing properties -/

lemma pad2_length_two {n : Nat} (h : n ≤ 99) : (pad2 n).length = 2 := by
  interval_cases n <;> decide

/-- C7: every merged lyric line renders as `[MM:SS.CC]text` with CC the
millisecond offset truncated (not rounded) to hundredths and MM/SS zero-padded
to two digits (MM staying at 2 digits below 100 minutes); the end-to-end
scenario of the spec merges and renders as stated. -/
theorem lrc_render_format (ms : Nat) (text : String) (hms : ms < 6000000) :
    ms % 1000 / 10 = ms / 10 % 100
    ∧ ms / 1000 % 60 ≤ 59
    ∧ (pad2 (ms / 1000 % 60)).length = 2
    ∧ (pad2 (ms % 1000 / 10)).length = 2
    ∧ (pad2 (ms / 1000 / 60)).length = 2
    ∧ lrcTimeTag ms ++ text =
        "[" ++ pad2 (ms / 1000 / 60) ++ ":" ++ pad2 (ms / 1000 % 60) ++ "." ++
          pad2 (ms / 10 % 100) ++ "]" ++ text
    ∧ mergeItems 2 (sortByOffset [(0, "你"), (300, "好"), (600, "世"), (900, "界")]) "" 0 =
        [(0, "你好"), (600, "世界")]
    ∧ renderLrc [(0, "你好"), (600, "世界")] = "[00:00.00]你好\n[00:00.60]世界" := by
  have hcc : ms % 1000 / 10 = ms / 10 % 100 := by omega
  refine ⟨hcc, by omega, pad2_length_two (by omega), pad2_length_two (by omega),
    pad2_length_two ?_, ?_, by rfl, by rfl⟩
  · have : ms / 1000 / 60 = ms / 60000 := by
      rw [Nat.div_div_eq_div_mul]
    rw [this]
    omega
  · rw [lrcTimeTag, hcc]

theorem lrc_render_format_witness :
    65432 % 1000 / 10 = 65432 / 10 % 100
    ∧ 65432 / 1000 % 60 ≤ 59
    ∧ (pad2 (65432 / 1000 % 60)).length = 2
    ∧ (pad2 (65432 % 1000 / 10)).length = 2
    ∧ (pad2 (65432 / 1000 / 60)).length = 2
    ∧ lrcTimeTag 65432 ++ "哈" =
        "[" ++ pad2 (65432 / 1000 / 60) ++ ":" ++ pad2 (65432 / 1000 % 60) ++ "." ++
          pad2 (65432 / 10 % 100) ++ "]" ++ "哈"
    ∧ mergeItems 2 (sortByOffset [(0, "你"), (300, "好"), (600, "世"), (900, "界")]) "" 0 =
        [(0, "你好"), (600, "世界")]
    ∧ renderLrc [(0, "你好"), (600, "世界")] = "[00:00.00]你好\n[00:00.60]世界" :=
  lrc_render_format 65432 "哈" (by decide)

lemma filterMap_filter_isSome {α β : Type} (f : α → Option β) (l : List α) :
    (l.filter fun a => (f a).isSome).filterMap f = l.filterMap f := by
  induction l with
  | nil => rfl
  | cons a l ih =>
    cases hf : f a with
    | some b => simp [List.filter_cons, List.filterMap_cons, hf, ih]
    | none => simp [List.filter_cons, List.filterMap_cons, hf, ih]

/-- C10: `convert_srt_to_lrc` silently discards exactly the SRT blocks with
fewer than three lines, a blank second line, or no time match on the second
line: the output equals the output computed from the block list with every
such block removed, and a block survives iff it has the three-line shape with
a non-blank, time-matching second line. -/
theorem srt_block_filter (srt : String) (cpl : Nat) :
    convert_srt_to_lrc srt cpl =
      lrcFromBlocks cpl ((pySplitOn (pyStrip srt) "\n\n").filter validBlock)
    ∧ ∀ b : String, validBlock b = true ↔
        ∃ l0 l1 l2 rest, pySplitOn b "\n" = l0 :: l1 :: l2 :: rest
          ∧ pyStrip l1 ≠ "" ∧ (searchTime l1.data).isSome = true := by
  constructor
  · exact congrArg (lrcFromItems cpl)
      (filterMap_filter_isSome parseBlock (pySplitOn (pyStrip srt) "\n\n")).symm
  · intro b
    have hvb : validBlock b = (parseBlock b).isSome := rfl
    rw [hvb]
    cases hsp : pySplitOn b "\n" with
    | nil =>
      have hpb : parseBlock b = none := by unfold parseBlock; rw [hsp]
      rw [hpb]
      simp
    | cons l0 tl =>
      cases tl with
      | nil =>
        have hpb : parseBlock b = none := by unfold parseBlock; rw [hsp]
        rw [hpb]
        simp
      | cons l1 tl2 =>
        cases tl2 with
        | nil =>
          have hpb : parseBlock b = none := by unfold parseBlock; rw [hsp]
          rw [hpb]
          simp
        | cons l2 rest =>
          have hpb : parseBlock b =
              (if pyStrip l1 = "" then none
               else
                 match searchTime l1.data with
                 | some (h, m, s, ms) => some ((h * 3600 + m * 60 + s) * 1000 + ms, l2)
                 | none => none) := by
            unfold parseBlock
            rw [hsp]
          rw [hpb]
          constructor
          · intro hval
            by_cases h1 : pyStrip l1 = ""
            · rw [if_pos h1] at hval
              simp at hval
            · rw [if_neg h1] at hval
              cases hst : searchTime l1.data with
              | none => rw [hst] at hval; simp at hval
              | some r => exact ⟨l0, l1, l2, rest, rfl, h1, by rw [hst]; rfl⟩
          · rintro ⟨a0, a1, a2, ar, heq, hne, hsome⟩
            have e1 : a1 = l1 := by
              injection heq with e0 etl
              injection etl with e1 _
              exact e1.symm
            rw [e1] at hne hsome
            rw [if_neg hne]
            cases hst : searchTime l1.data with
            | none => rw [hst] at hsome; simp at hsome
            | some r =>
              obtain ⟨h, m, s, msv⟩ := r
              rfl

/-! ### Retrying synthesis job: `process_text_to_mp3` (app.pyw lines 422-456) -/

/-- Default configuration constants (app.pyw lines 38-40). -/
def DEFAULT_CHARS_PER_LINE : Nat := 15

def MAX_RETRIES : Nat := 3

def RETRY_DELAY_SECONDS : Nat := 5

/-- Observable actions of one `process_text_to_mp3` run, in program order:
the empty-text warning, creation of an `edge_tts.Communicate` stream
(contact with the speech provider), the per-attempt failure log, the
inter-attempt sleep, and the final-attempt failure log. -/
inductive TtsEvent (ε : Type) where
  | emptyWarn : TtsEvent ε
  | contact : TtsEvent ε
  | attemptFail (attempt : Nat) (e : ε) : TtsEvent ε
  | waitRetry (seconds : Nat) : TtsEvent ε
  | finalFail (attempt : Nat) (e : ε) : TtsEvent ε
  deriving DecidableEq

/-- Embedding of `not text or not text.strip()` (line 426). -/
def textBlank (t : String) : Bool := t == "" || pyStrip t == ""

/-- One pass of the `for attempt in range(max_retries)` loop of
`process_text_to_mp3`, with `r + 1` attempts remaining and the current
0-based `attempt` counter.  The oracle `outcome` gives each attempt's result:
`none` means the attempt's body ran to completion (files written, `True`
returned), `some e` means it raised the exception `e`.  The `r = 0` test is
the code's `attempt < max_retries - 1` in its final-attempt form. -/
def ptmGo {ε : Type} (text : String) (outcome : Nat → Option ε) (retryDelay : Nat) :
    Nat → Nat → Bool × List (TtsEvent ε)
  | 0, _ => (false, [])
  | r + 1, attempt =>
    if textBlank text then (false, [.emptyWarn])
    else
      match outcome attempt with
      | none => (true, [.contact])
      | some e =>
        if r = 0 then (false, [.contact, .finalFail attempt e])
        else
          let p := ptmGo text outcome retryDelay r (attempt + 1)
          (p.1, .contact :: .attemptFail attempt e :: .waitRetry retryDelay :: p.2)

/-- Embedding of `process_text_to_mp3(text, ..., max_retries)`: run up to
`maxRetries` attempts starting from attempt 0; the returned `Bool` is the
function's return value and the list collects the observable actions. -/
def process_text_to_mp3 {ε : Type} (text : String) (outcome : Nat → Option ε)
    (maxRetries retryDelay : Nat) : Bool × List (TtsEvent ε) :=
  ptmGo text outcome retryDelay maxRetries 0

/-- Classifiers for counting events. -/
def TtsEvent.isContact {ε : Type} : TtsEvent ε → Bool
  | .contact => true
  | _ => false

def TtsEvent.isFailLog {ε : Type} : TtsEvent ε → Bool
  | .attemptFail _ _ => true
  | .finalFail _ _ => true
  | _ => false

def TtsEvent.isWait {ε : Type} : TtsEvent ε → Bool
  | .waitRetry _ => true
  | _ => false

/-- Closed form of a run of `ptmGo` in which every attempt raises. -/
lemma ptmGo_all_fail {ε : Type} (text : String) (err : Nat → ε) (retryDelay : Nat)
    (hblank : textBlank text = false) :
    ∀ (r attempt : Nat), 0 < r →
      ptmGo text (fun k => some (err k)) retryDelay r attempt =
        (false,
          ((List.range' attempt (r - 1)).flatMap fun k =>
            [.contact, .attemptFail k (err k), .waitRetry retryDelay]) ++
          [.contact, .finalFail (attempt + (r - 1)) (err (attempt + (r - 1)))]) := by
  intro r
  induction r with
  | zero => intro attempt h; exact absurd h (by decide)
  | succ r ih =>
    intro attempt _
    show (if textBlank text then (false, [.emptyWarn])
      else
        if r = 0 then (false, [.contact, .finalFail attempt (err attempt)])
        else
          let p := ptmGo text (fun k => some (err k)) retryDelay r (attempt + 1)
          (p.1, .contact :: .attemptFail attempt (err attempt) ::
            .waitRetry retryDelay :: p.2)) = _
    rw [if_neg (by rw [hblank]; decide)]
    rcases Nat.eq_zero_or_pos r with hr | hr
    · subst hr
      simp [List.range']
    · rw [if_neg (Nat.pos_iff_ne_zero.mp hr)]
      have hrw := ih (attempt + 1) hr
      show (( ptmGo text (fun k => some (err k)) retryDelay r (attempt + 1)).1,
        .contact :: .attemptFail attempt (err attempt) :: .waitRetry retryDelay ::
          (ptmGo text (fun k => some (err k)) retryDelay r (attempt + 1)).2) = _
      rw [hrw]
      have hr1 : r + 1 - 1 = (r - 1) + 1 := by omega
      rw [hr1, List.range'_succ, List.flatMap_cons]
      have hshift : attempt + 1 + (r - 1) = attempt + (r - 1 + 1) := by omega
      rw [hshift]
      rfl

lemma countP_flatMap_const {α β : Type} (p : β → Bool) (f : α → List β) (c : Nat)
    (h : ∀ a, (f a).countP p = c) :
    ∀ l : List α, (l.flatMap f).countP p = l.length * c := by
  intro l
  induction l with
  | nil => simp
  | cons a l ih =>
    rw [List.flatMap_cons, List.countP_append, h a, ih, List.length_cons]
    ring

/-- C2: a `process_text_to_mp3` job with non-blank text whose every attempt
raises makes exactly `max_retries` provider contacts, emits exactly
`max_retries` attempt-failure log events, sleeps `retry_delay` seconds exactly
`max_retries - 1` times (and every sleep is `retry_delay`), returns `False`,
and its last event is the final-failure log carrying the last attempt's
error. -/
theorem retry_exhaustion (ε : Type) (text : String) (err : Nat → ε)
    (maxRetries retryDelay : Nat) (hblank : textBlank text = false)
    (hpos : 0 < maxRetries) :
    (process_text_to_mp3 text (fun k => some (err k)) maxRetries retryDelay).1 = false
    ∧ ((process_text_to_mp3 text (fun k => some (err k)) maxRetries retryDelay).2.countP
        TtsEvent.isContact) = maxRetries
    ∧ ((process_text_to_mp3 text (fun k => some (err k)) maxRetries retryDelay).2.countP
        TtsEvent.isFailLog) = maxRetries
    ∧ ((process_text_to_mp3 text (fun k => some (err k)) maxRetries retryDelay).2.countP
        TtsEvent.isWait) = maxRetries - 1
    ∧ (∀ s, TtsEvent.waitRetry s ∈
        (process_text_to_mp3 text (fun k => some (err k)) maxRetries retryDelay).2 →
        s = retryDelay)
    ∧ (process_text_to_mp3 text (fun k => some (err k)) maxRetries retryDelay).2.getLast? =
        some (.finalFail (maxRetries - 1) (err (maxRetries - 1))) := by
  have hrun := ptmGo_all_fail text err retryDelay hblank maxRetries 0 hpos
  rw [process_text_to_mp3, hrun]
  have hlen : (List.range' 0 (maxRetries - 1)).length = maxRetries - 1 := by
    simp
  refine ⟨rfl, ?_, ?_, ?_, ?_, ?_⟩
  · rw [List.countP_append,
      countP_flatMap_const TtsEvent.isContact _ 1
        (fun a => by simp [List.countP_cons, TtsEvent.isContact]), hlen]
    simp [List.countP_cons, TtsEvent.isContact]
    omega
  · rw [List.countP_append,
      countP_flatMap_const TtsEvent.isFailLog _ 1
        (fun a => by simp [List.countP_cons, TtsEvent.isFailLog]), hlen]
    simp [List.countP_cons, TtsEvent.isFailLog]
    omega
  · rw [List.countP_append,
      countP_flatMap_const TtsEvent.isWait _ 1
        (fun a => by simp [List.countP_cons, TtsEvent.isWait]), hlen]
    simp [List.countP_cons, TtsEvent.isWait]
  · intro s hs
    rcases List.mem_append.mp hs with hs | hs
    · obtain ⟨k, _, hk⟩ := List.mem_flatMap.mp hs
      simp at hk
      exact hk
    · simp at hs
  · rw [show ((List.range' 0 (maxRetries - 1)).flatMap fun k =>
        [TtsEvent.contact, TtsEvent.attemptFail k (err k),
          TtsEvent.waitRetry retryDelay]) ++
        [TtsEvent.contact, TtsEvent.finalFail (0 + (maxRetries - 1))
          (err (0 + (maxRetries - 1)))] =
        (((List.range' 0 (maxRetries - 1)).flatMap fun k =>
          [TtsEvent.contact, TtsEvent.attemptFail k (err k),
            TtsEvent.waitRetry retryDelay]) ++ [TtsEvent.contact]) ++
        [TtsEvent.finalFail (0 + (maxRetries - 1)) (err (0 + (maxRetries - 1)))] from by
      rw [List.append_assoc]; rfl]
    rw [List.getLast?_concat]
    rw [Nat.zero_add]

theorem retry_exhaustion_witness :
    (process_text_to_mp3 "hello" (fun k => some (k + 100)) 3 5).1 = false
    ∧ ((process_text_to_mp3 "hello" (fun k => some (k + 100)) 3 5).2.countP
        TtsEvent.isContact) = 3
    ∧ ((process_text_to_mp3 "hello" (fun k => some (k + 100)) 3 5).2.countP
        TtsEvent.isFailLog) = 3
    ∧ ((process_text_to_mp3 "hello" (fun k => some (k + 100)) 3 5).2.countP
        TtsEvent.isWait) = 3 - 1
    ∧ (∀ s, TtsEvent.waitRetry s ∈
        (process_text_to_mp3 "hello" (fun k => some (k + 100)) 3 5).2 → s = 5)
    ∧ (process_text_to_mp3 "hello" (fun k => some (k + 100)) 3 5).2.getLast? =
        some (.finalFail (3 - 1) (3 - 1 + 100)) :=
  retry_exhaustion Nat "hello" (fun k => k + 100) 3 5 (by decide) (by decide)

/-- C3: a `process_text_to_mp3` job whose text is empty or whitespace-only
fails on the first attempt: it returns `False` with the empty-text warning as
its only observable action, so it never creates a `Communicate` stream, never
sleeps, and makes no further attempt. -/
theorem blank_text_fails_immediately (ε : Type) (text : String)
    (outcome : Nat → Option ε) (maxRetries retryDelay : Nat)
    (hblank : textBlank text = true) (hpos : 0 < maxRetries) :
    process_text_to_mp3 text outcome maxRetries retryDelay = (false, [.emptyWarn])
    ∧ ((process_text_to_mp3 text outcome maxRetries retryDelay).2.countP
        TtsEvent.isContact) = 0
    ∧ ((process_text_to_mp3 text outcome maxRetries retryDelay).2.countP
        TtsEvent.isWait) = 0 := by
  obtain ⟨r, rfl⟩ : ∃ r, maxRetries = r + 1 :=
    ⟨maxRetries - 1, by omega⟩
  have hrun : process_text_to_mp3 text outcome (r + 1) retryDelay =
      (false, [.emptyWarn]) := by
    unfold process_text_to_mp3 ptmGo
    rw [hblank]
    rfl
  exact ⟨hrun, by rw [hrun]; rfl, by rw [hrun]; rfl⟩

theorem blank_text_fails_immediately_witness :
    process_text_to_mp3 "  " (fun _ => (none : Option Nat)) 3 5 =
      (false, [.emptyWarn])
    ∧ ((process_text_to_mp3 "  " (fun _ => (none : Option Nat)) 3 5).2.countP
        TtsEvent.isContact) = 0
    ∧ ((process_text_to_mp3 "  " (fun _ => (none : Option Nat)) 3 5).2.countP
        TtsEvent.isWait) = 0 :=
  blank_text_fails_immediately Nat "  " (fun _ => none) 3 5 (by decide) (by decide)

/-! ### Filename sanitization (app.pyw lines 1365-1367, 1387-1388, 1666-1672) -/

/-- The characters removed by `re.sub(r'[\\/*?:"<>|]', "", title)`. -/
def illegalChars : List Char := ['\\', '/', '*', '?', ':', '"', '<', '>', '|']

/-- Embedding of `re.sub(r'[\\/*?:"<>|]', "", title)`: delete every occurrence
of the nine illegal filename characters. -/
def sanitizeTitle (t : String) : String :=
  String.mk (t.data.filter fun c => !(illegalChars.contains c))

/-- Decimal digit character for a value below 10. -/
def digitChar (d : Nat) : Char := Char.ofNat (48 + d)

/-- Decimal digit string of `n` (fuel-structured; `fuel = n + 1` suffices
since `n / 10 < n` for `n ≥ 10`). -/
def natDigitsAux : Nat → Nat → List Char
  | 0, n => [digitChar (n % 10)]
  | fuel + 1, n =>
    if n < 10 then [digitChar n]
    else natDigitsAux fuel (n / 10) ++ [digitChar (n % 10)]

/-- Embedding of Python `str(n)` for a non-negative integer. -/
def decimalRepr (n : Nat) : String := String.mk (natDigitsAux n n)

/-- Embedding of the fallback name `f"章节{i}"` used when the sanitized title
is empty (lines 1367 and 1668). -/
def fallbackTitle (i : Nat) : String := "章节" ++ decimalRepr i

/-- Embedding of the batch-mode safe title (lines 1666-1670): sanitize, fall
back to `章节{i}` when empty, and truncate titles over 200 characters to 197
plus an ellipsis. -/
def batchSafeTitle (title : String) (i : Nat) : String :=
  let s := sanitizeTitle title
  let s2 := if s = "" then fallbackTitle i else s
  if 200 < s2.length then String.mk (s2.data.take 197) ++ "..." else s2

/-- Embedding of Python `f"{i:03d}"`: zero-pad the decimal digits to width 3. -/
def pad3 (n : Nat) : String :=
  if n < 10 then "00" ++ decimalRepr n
  else if n < 100 then "0" ++ decimalRepr n
  else decimalRepr n

/-- Batch-mode output names (lines 1671-1672). -/
def batchMp3Name (i : Nat) (title : String) : String :=
  pad3 i ++ "-" ++ batchSafeTitle title i ++ ".mp3"

def batchLrcName (i : Nat) (title : String) : String :=
  pad3 i ++ "-" ++ batchSafeTitle title i ++ ".lrc"

/-- Embedding of the single-chapter safe title (lines 1365-1367): sanitize and
fall back to `章节{index+1}` (0-based chapter index) when empty. -/
def singleSafeTitle (title : String) (index : Nat) : String :=
  let s := sanitizeTitle title
  if s = "" then fallbackTitle (index + 1) else s

/-- Single-chapter output names (lines 1387-1388): no sequence prefix. -/
def singleMp3Name (title : String) (index : Nat) : String :=
  singleSafeTitle title index ++ ".mp3"

def singleLrcName (title : String) (index : Nat) : String :=
  singleSafeTitle title index ++ ".lrc"

lemma digitChar_isDigit {d : Nat} (h : d < 10) : (digitChar d).isDigit = true := by
  interval_cases d <;> decide

lemma natDigitsAux_digits :
    ∀ (fuel n : Nat) (c : Char), c ∈ natDigitsAux fuel n → c.isDigit = true := by
  intro fuel
  induction fuel with
  | zero =>
    intro n c hc
    have hce := List.mem_singleton.mp hc
    subst hce
    exact digitChar_isDigit (Nat.mod_lt _ (by omega))
  | succ fuel ih =>
    intro n c hc
    by_cases hn : n < 10
    · rw [natDigitsAux, if_pos hn] at hc
      have hce := List.mem_singleton.mp hc
      subst hce
      exact digitChar_isDigit hn
    · rw [natDigitsAux, if_neg hn] at hc
      rcases List.mem_append.mp hc with h | h
      · exact ih _ _ h
      · have hce := List.mem_singleton.mp h
        subst hce
        exact digitChar_isDigit (Nat.mod_lt _ (by omega))

lemma decimalRepr_digits {n : Nat} {c : Char} (h : c ∈ (decimalRepr n).data) :
    c.isDigit = true :=
  natDigitsAux_digits n n c h

lemma illegal_not_digit {c : Char} (hc : c ∈ illegalChars) : c.isDigit = false := by
  fin_cases hc <;> decide

lemma string_data_append (a b : String) : (a ++ b).data = a.data ++ b.data := by
  cases a with
  | mk da => cases b with
    | mk db => rfl

lemma illegal_not_in_fallback {c : Char} (hc : c ∈ illegalChars) (i : Nat) :
    c ∉ (fallbackTitle i).data := by
  intro hmem
  rw [fallbackTitle, string_data_append] at hmem
  rcases List.mem_append.mp hmem with h | h
  · fin_cases hc <;> revert h <;> decide
  · have hd := decimalRepr_digits h
    rw [illegal_not_digit hc] at hd
    cases hd

lemma illegal_not_in_sanitized {c : Char} (hc : c ∈ illegalChars) (t : String) :
    c ∉ (sanitizeTitle t).data := by
  intro hmem
  rw [sanitizeTitle] at hmem
  have hp := List.of_mem_filter hmem
  rw [Bool.not_eq_true'] at hp
  have hcontains : illegalChars.contains c = true := by
    fin_cases hc <;> decide
  rw [hcontains] at hp
  cases hp

lemma natDigitsAux_lt10 (fuel : Nat) {n : Nat} (h : n < 10) :
    natDigitsAux fuel n = [digitChar n] := by
  cases fuel with
  | zero => rw [natDigitsAux, Nat.mod_eq_of_lt h]
  | succ f => rw [natDigitsAux, if_pos h]

lemma natDigitsAux_ge10 {fuel n : Nat} (h : ¬ n < 10) :
    natDigitsAux (fuel + 1) n = natDigitsAux fuel (n / 10) ++ [digitChar (n % 10)] := by
  rw [natDigitsAux, if_neg h]

lemma decimalRepr_length1 {n : Nat} (h : n < 10) : (decimalRepr n).length = 1 := by
  rw [decimalRepr, natDigitsAux_lt10 _ h]
  rfl

lemma decimalRepr_length2 {n : Nat} (h1 : 10 ≤ n) (h2 : n < 100) :
    (decimalRepr n).length = 2 := by
  obtain ⟨f, rfl⟩ : ∃ f, n = f + 1 := ⟨n - 1, by omega⟩
  rw [decimalRepr, natDigitsAux_ge10 (by omega), natDigitsAux_lt10 _ (by omega)]
  rfl

lemma decimalRepr_length3 {n : Nat} (h1 : 100 ≤ n) (h2 : n ≤ 999) :
    (decimalRepr n).length = 3 := by
  obtain ⟨f, rfl⟩ : ∃ f, n = f + 1 := ⟨n - 1, by omega⟩
  rw [decimalRepr, natDigitsAux_ge10 (by omega)]
  obtain ⟨g, rfl⟩ : ∃ g, f = g + 1 := ⟨f - 1, by omega⟩
  rw [natDigitsAux_ge10 (by omega), natDigitsAux_lt10 _ (by omega)]
  rfl

lemma string_length_append (a b : String) : (a ++ b).length = a.length + b.length := by
  show (a ++ b).data.length = a.data.length + b.data.length
  rw [string_data_append, List.length_append]

lemma decimalRepr_length_le {n : Nat} (h : n ≤ 999) : (decimalRepr n).length ≤ 3 := by
  by_cases h1 : n < 10
  · rw [decimalRepr_length1 h1]; omega
  · by_cases h2 : n < 100
    · rw [decimalRepr_length2 (by omega) h2]; omega
    · rw [decimalRepr_length3 (by omega) h]

lemma pad3_length {n : Nat} (h : n ≤ 999) : (pad3 n).length = 3 := by
  by_cases h1 : n < 10
  · rw [pad3, if_pos h1, string_length_append, decimalRepr_length1 h1]
    rfl
  · by_cases h2 : n < 100
    · rw [pad3, if_neg h1, if_pos h2, string_length_append,
        decimalRepr_length2 (by omega) h2]
      rfl
    · rw [pad3, if_neg h1, if_neg h2, decimalRepr_length3 (by omega) h]

lemma fallbackTitle_length_le {i : Nat} (h : i ≤ 999) :
    (fallbackTitle i).length ≤ 5 := by
  rw [fallbackTitle, string_length_append]
  have := decimalRepr_length_le h
  have h2 : ("章节" : String).length = 2 := by decide
  omega

lemma illegal_not_in_batchSafe {c : Char} (hc : c ∈ illegalChars) (title : String)
    (i : Nat) : c ∉ (batchSafeTitle title i).data := by
  rw [batchSafeTitle]
  have hs2 : c ∉ (if sanitizeTitle title = "" then fallbackTitle i
      else sanitizeTitle title).data := by
    by_cases he : sanitizeTitle title = ""
    · rw [if_pos he]; exact illegal_not_in_fallback hc i
    · rw [if_neg he]; exact illegal_not_in_sanitized hc title
  by_cases htr : 200 < (if sanitizeTitle title = "" then fallbackTitle i
      else sanitizeTitle title).length
  · rw [if_pos htr]
    intro hmem
    rw [string_data_append] at hmem
    rcases List.mem_append.mp hmem with h | h
    · exact hs2 ((List.take_sublist 197 _).subset h)
    · fin_cases hc <;> revert h <;> decide
  · rw [if_neg htr]
    exact hs2

lemma illegal_not_in_singleSafe {c : Char} (hc : c ∈ illegalChars) (title : String)
    (index : Nat) : c ∉ (singleSafeTitle title index).data := by
  rw [singleSafeTitle]
  by_cases he : sanitizeTitle title = ""
  · rw [if_pos he]; exact illegal_not_in_fallback hc (index + 1)
  · rw [if_neg he]; exact illegal_not_in_sanitized hc title

/-- C8: the derived filesystem-safe names contain none of the nine illegal
characters; a title whose sanitization is empty falls back to the index-based
placeholder `章节{i}`; batch outputs are `{i:03d}-{safe}.mp3/.lrc` with a
3-character zero-padded 1-based prefix, and single-chapter outputs are
`{safe}.mp3/.lrc` with no prefix. -/
theorem filename_sanitization (title : String) (i index : Nat) (c : Char)
    (hc : c ∈ illegalChars) (hi : i ≤ 999) :
    c ∉ (batchSafeTitle title i).data
    ∧ c ∉ (singleSafeTitle title index).data
    ∧ (sanitizeTitle title = "" →
        batchSafeTitle title i = fallbackTitle i
        ∧ singleSafeTitle title index = fallbackTitle (index + 1))
    ∧ (pad3 i).length = 3
    ∧ batchMp3Name i title = pad3 i ++ "-" ++ batchSafeTitle title i ++ ".mp3"
    ∧ batchLrcName i title = pad3 i ++ "-" ++ batchSafeTitle title i ++ ".lrc"
    ∧ singleMp3Name title index = singleSafeTitle title index ++ ".mp3"
    ∧ singleLrcName title index = singleSafeTitle title index ++ ".lrc"
    ∧ sanitizeTitle "A/B:C" = "ABC" := by
  refine ⟨illegal_not_in_batchSafe hc title i, illegal_not_in_singleSafe hc title index,
    ?_, pad3_length hi, rfl, rfl, rfl, rfl, by decide⟩
  intro he
  constructor
  · rw [batchSafeTitle]
    simp only [if_pos he]
    rw [if_neg (by have := fallbackTitle_length_le hi; omega)]
  · rw [singleSafeTitle]
    simp only [if_pos he]

theorem filename_sanitization_witness :
    '/' ∉ (batchSafeTitle "A/B:C" 7).data
    ∧ '/' ∉ (singleSafeTitle "A/B:C" 0).data
    ∧ (sanitizeTitle "A/B:C" = "" →
        batchSafeTitle "A/B:C" 7 = fallbackTitle 7
        ∧ singleSafeTitle "A/B:C" 0 = fallbackTitle (0 + 1))
    ∧ (pad3 7).length = 3
    ∧ batchMp3Name 7 "A/B:C" = pad3 7 ++ "-" ++ batchSafeTitle "A/B:C" 7 ++ ".mp3"
    ∧ batchLrcName 7 "A/B:C" = pad3 7 ++ "-" ++ batchSafeTitle "A/B:C" 7 ++ ".lrc"
    ∧ singleMp3Name "A/B:C" 0 = singleSafeTitle "A/B:C" 0 ++ ".mp3"
    ∧ singleLrcName "A/B:C" 0 = singleSafeTitle "A/B:C" 0 ++ ".lrc"
    ∧ sanitizeTitle "A/B:C" = "ABC" :=
  filename_sanitization "A/B:C" 7 0 '/' (by decide) (by decide)

/-! ### Conversion requests and the busy flag (app.pyw lines 1338-1418,
1515-1571) -/

/-- Outcome of a conversion request handler: rejected with the busy warning
dialog, rejected with an error dialog (invalid input), returned without
starting (user cancelled a dialog), or a worker thread started. -/
inductive ReqOutcome where
  | rejectedBusy : ReqOutcome
  | rejectedError : ReqOutcome
  | notStarted : ReqOutcome
  | started : ReqOutcome
  deriving DecidableEq

/-- Embedding of `start_generate_ebook` (lines 1515-1571): the handler checks
`self.processing` first and shows the busy warning; then validates chapters,
resolves an output directory (asking the user if unset), and asks for
confirmation before starting the batch thread. -/
def start_generate_ebook (processing hasChapters dirAvailable userConfirms : Bool) :
    ReqOutcome :=
  if processing then .rejectedBusy
  else if !hasChapters then .rejectedError
  else if !dirAvailable then .notStarted
  else if !userConfirms then .notStarted
  else .started

/-- Embedding of `convert_chapter_to_mp3` (lines 1338-1418): the handler
validates the chapter index and content, resolves an output directory and asks
for confirmation, then starts the single-chapter thread.  The `_processing`
flag is accepted but — unlike `start_generate_ebook` — never consulted: no
branch of the source function reads `self.processing`. -/
def convert_chapter_to_mp3 (_processing validIndex hasContent dirAvailable
    userConfirms : Bool) : ReqOutcome :=
  if !validIndex then .rejectedError
  else if !hasContent then .rejectedError
  else if !dirAvailable then .notStarted
  else if !userConfirms then .notStarted
  else .started

/-- C4 counterexample: a single-chapter conversion request issued while
another conversion is active (`processing = true`) is started, not rejected
with a busy signal, because `convert_chapter_to_mp3` never reads the flag. -/
theorem busy_rejection_counterexample :
    convert_chapter_to_mp3 true true true true true = ReqOutcome.started
    ∧ ReqOutcome.started ≠ ReqOutcome.rejectedBusy := by
  exact ⟨rfl, by decide⟩

/-- C4 (amended): a batch-start request issued while a conversion is active is
rejected immediately with the busy warning and nothing is started, but a
single-chapter conversion request does not consult the busy flag at all: its
outcome is identical whether or not another conversion is running. -/
theorem busy_rejection_amended (hasChapters dirAvailable userConfirms : Bool)
    (processing validIndex hasContent dirAvailable2 userConfirms2 : Bool) :
    start_generate_ebook true hasChapters dirAvailable userConfirms =
      ReqOutcome.rejectedBusy
    ∧ convert_chapter_to_mp3 processing validIndex hasContent dirAvailable2
        userConfirms2 =
      convert_chapter_to_mp3 false validIndex hasContent dirAvailable2
        userConfirms2 := by
  exact ⟨rfl, rfl⟩

/-! ### Binary64 model of the progress expression (app.pyw line 1673)

The batch thread computes its progress percentage as
`int((i - 1) / len(chapters) * 100)`, evaluated in Python binary64 floating
point.  The following definitions model that evaluation exactly for operands
in the normal range (which covers every value the expression can take):
division and multiplication round to 53 significant bits, nearest, ties to
even; `int()` truncates toward zero. -/

/-- Fuel-structured binary logarithm (`Nat.log2` in core is well-founded and
does not reduce in the kernel; this version does, with the same values). -/
def natLog2Aux : Nat → Nat → Nat
  | 0, _ => 0
  | fuel + 1, n => if n < 2 then 0 else natLog2Aux fuel (n / 2) + 1

def natLog2 (n : Nat) : Nat := natLog2Aux n n

lemma natLog2Aux_spec :
    ∀ (fuel n : Nat), n ≤ fuel → 1 ≤ n →
      2 ^ natLog2Aux fuel n ≤ n ∧ n < 2 ^ (natLog2Aux fuel n + 1) := by
  intro fuel
  induction fuel with
  | zero => intro n h1 h2; omega
  | succ fuel ih =>
    intro n h1 h2
    rw [natLog2Aux]
    by_cases hn : n < 2
    · rw [if_pos hn]
      simp
      omega
    · rw [if_neg hn]
      have hrec := ih (n / 2) (by omega) (by omega)
      have e1 : 2 ^ (natLog2Aux fuel (n / 2) + 1) = 2 * 2 ^ natLog2Aux fuel (n / 2) := by
        ring
      have e2 : 2 ^ (natLog2Aux fuel (n / 2) + 1 + 1) =
          2 * 2 ^ (natLog2Aux fuel (n / 2) + 1) := by ring
      omega

lemma natLog2_spec {n : Nat} (h : 1 ≤ n) :
    2 ^ natLog2 n ≤ n ∧ n < 2 ^ (natLog2 n + 1) :=
  natLog2Aux_spec n n (le_refl n) h

/-- Floor of `log2 (a / b)` for `a, b ≥ 1`, computed by scaling the numerator
so the integer logarithm applies. -/
def ilog2Rat (a b : Nat) : Int :=
  (natLog2 (a * 2 ^ (natLog2 b + 2) / b) : Int) - (natLog2 b + 2)

/-- Round the non-negative rational `num / den` to the nearest integer with
ties to even, the IEEE-754 default rounding. -/
def rnInt (num den : Nat) : Nat :=
  if 2 * (num % den) < den then num / den
  else if den < 2 * (num % den) then num / den + 1
  else if num / den % 2 = 0 then num / den else num / den + 1

/-- Round `a / b` (`a, b ≥ 1`) to 53 significant bits: the result `(m, E)`
denotes the value `m * 2 ^ (E - 52)` with `2 ^ 52 ≤ m ≤ 2 ^ 53`.  This is the
value binary64 division `a / b` produces for operands in the normal range. -/
def roundFloat (a b : Nat) : Nat × Int :=
  (rnInt (a * 2 ^ ((52 : Int) - ilog2Rat a b).toNat)
     (b * 2 ^ (ilog2Rat a b - 52).toNat),
   ilog2Rat a b)

/-- The value `m * 2 ^ (E - 52)` written as a quotient of naturals. -/
def dyadicPair (m : Nat) (E : Int) : Nat × Nat :=
  (m * 2 ^ (E - 52).toNat, 2 ^ ((52 : Int) - E).toNat)

/-- Binary64 multiplication of the float `(m, E)` by the exact integer `100`:
the exact product is re-rounded to 53 significant bits. -/
def mul100 (x : Nat × Int) : Nat × Int :=
  roundFloat ((dyadicPair x.1 x.2).1 * 100) (dyadicPair x.1 x.2).2

/-- Python `int()` truncation of the non-negative float `(m, E)`. -/
def truncFloat (x : Nat × Int) : Nat :=
  (dyadicPair x.1 x.2).1 / (dyadicPair x.1 x.2).2

/-- Embedding of `int((i - 1) / len(chapters) * 100)` (line 1673) under
binary64 evaluation, with `j = i - 1`: divide by `K`, multiply by `100`,
truncate, each arithmetic step rounding as the hardware does.  `j = 0` gives
the exact `0.0`; the `K = 0` guard is unreachable (the batch handler rejects
books without chapters, and Python would raise `ZeroDivisionError`). -/
def pyProgress (j K : Nat) : Nat :=
  if j = 0 ∨ K = 0 then 0 else truncFloat (mul100 (roundFloat j K))

/-- Rational value denoted by a float `(m, E)`. -/
def fval (x : Nat × Int) : ℚ := (x.1 : ℚ) * (2 : ℚ) ^ (x.2 - 52)

lemma two_zpow_pos (e : Int) : (0 : ℚ) < 2 ^ e := by positivity

lemma zpow_toNat_div (u : Int) :
    ((2 : ℚ) ^ u.toNat) / ((2 : ℚ) ^ ((-u).toNat)) = (2 : ℚ) ^ u := by
  rcases le_or_lt 0 u with h | h
  · rw [show (-u).toNat = 0 from by omega, pow_zero, div_one, ← zpow_natCast,
      Int.toNat_of_nonneg h]
  · rw [show u.toNat = 0 from by omega, pow_zero, one_div, ← zpow_natCast,
      ← zpow_neg]
    congr 1
    omega

/-- Correctness of the exponent: `2 ^ E ≤ a / b < 2 ^ (E + 1)`. -/
lemma ilog2Rat_spec {a b : Nat} (ha : 1 ≤ a) (hb : 1 ≤ b) :
    (2 : ℚ) ^ ilog2Rat a b ≤ (a : ℚ) / b
    ∧ (a : ℚ) / b < 2 ^ (ilog2Rat a b + 1) := by
  set T := natLog2 b + 2 with hT
  set n := a * 2 ^ T / b with hn
  have hble : b < 2 ^ T := by
    calc b < 2 ^ (natLog2 b + 1) := (natLog2_spec hb).2
    _ ≤ 2 ^ T := Nat.pow_le_pow_right (by norm_num) (by omega)
  have hn1 : 1 ≤ n := by
    rw [hn, Nat.le_div_iff_mul_le (by omega)]
    calc 1 * b = b := one_mul b
    _ ≤ 2 ^ T := le_of_lt hble
    _ ≤ a * 2 ^ T := Nat.le_mul_of_pos_left _ (by omega)
  set L := natLog2 n with hL
  have hE : ilog2Rat a b = (L : Int) - T := by
    rw [ilog2Rat, ← hT, ← hn, ← hL]
    omega
  have hdm : b * n + a * 2 ^ T % b = a * 2 ^ T := by
    rw [hn]
    exact Nat.div_add_mod _ _
  have hmod : a * 2 ^ T % b < b := Nat.mod_lt _ (by omega)
  have hlow : b * 2 ^ L ≤ a * 2 ^ T := by
    have h1 : 2 ^ L ≤ n := (natLog2_spec hn1).1
    calc b * 2 ^ L ≤ b * n := Nat.mul_le_mul_left b h1
    _ ≤ a * 2 ^ T := by omega
  have hhigh : a * 2 ^ T < b * 2 ^ (L + 1) := by
    have h2 : n + 1 ≤ 2 ^ (L + 1) := (natLog2_spec hn1).2
    calc a * 2 ^ T = b * n + a * 2 ^ T % b := by omega
    _ < b * n + b := by omega
    _ = b * (n + 1) := by ring
    _ ≤ b * 2 ^ (L + 1) := Nat.mul_le_mul_left b h2
  have hbq : (0 : ℚ) < b := by exact_mod_cast hb
  have h2T : (0 : ℚ) < (2 : ℚ) ^ (T : Int) := two_zpow_pos _
  have hlowq : (b : ℚ) * 2 ^ L ≤ (a : ℚ) * 2 ^ T := by exact_mod_cast hlow
  have hhighq : (a : ℚ) * 2 ^ T < (b : ℚ) * 2 ^ (L + 1) := by exact_mod_cast hhigh
  constructor
  · rw [hE, zpow_sub₀ (by norm_num : (2:ℚ) ≠ 0), div_le_div_iff₀ h2T hbq,
      zpow_natCast, zpow_natCast]
    calc (2:ℚ) ^ L * b = b * 2 ^ L := by ring
    _ ≤ (a : ℚ) * 2 ^ T := hlowq
  · rw [hE, show (L : Int) - T + 1 = ((L + 1 : Nat) : Int) - T from by push_cast; ring,
      zpow_sub₀ (by norm_num : (2:ℚ) ≠ 0), div_lt_div_iff₀ hbq h2T,
      zpow_natCast, zpow_natCast]
    calc (a : ℚ) * 2 ^ T < (b : ℚ) * 2 ^ (L + 1) := hhighq
    _ = (2:ℚ) ^ (L + 1) * b := by ring

/-- The scaled quotient fed to `rnInt` lies in `[2 ^ 52, 2 ^ 53)`. -/
lemma roundFloat_scaled_bounds {a b : Nat} (ha : 1 ≤ a) (hb : 1 ≤ b) :
    2 ^ 52 * (b * 2 ^ (ilog2Rat a b - 52).toNat) ≤
      a * 2 ^ ((52 : Int) - ilog2Rat a b).toNat
    ∧ a * 2 ^ ((52 : Int) - ilog2Rat a b).toNat <
      2 ^ 53 * (b * 2 ^ (ilog2Rat a b - 52).toNat) := by
  obtain ⟨hlo, hhi⟩ := ilog2Rat_spec ha hb
  set E := ilog2Rat a b with hE
  have hbq : (0 : ℚ) < b := by exact_mod_cast hb
  have hsplit : (((52 : Int) - E).toNat : Int) = ((E - 52).toNat : Int) + (52 - E) := by
    omega
  have hpow : ((2 : ℚ) ^ ((52 : Int) - E).toNat) =
      (2 : ℚ) ^ (E - 52).toNat * (2 : ℚ) ^ ((52 : Int) - E) := by
    rw [← zpow_natCast (2 : ℚ) ((52 : Int) - E).toNat, hsplit,
      zpow_add₀ (by norm_num : (2:ℚ) ≠ 0), zpow_natCast]
  have hprod : ((a * 2 ^ ((52 : Int) - E).toNat : Nat) : ℚ) =
      ((b * 2 ^ (E - 52).toNat : Nat) : ℚ) * ((a : ℚ) / b * 2 ^ ((52 : Int) - E)) := by
    push_cast
    rw [hpow]
    field_simp
    ring
  have hslo : (2 : ℚ) ^ (52 : Nat) ≤ (a : ℚ) / b * 2 ^ ((52 : Int) - E) := by
    calc (2 : ℚ) ^ (52 : Nat) = (2 : ℚ) ^ E * 2 ^ ((52 : Int) - E) := by
          rw [← zpow_add₀ (by norm_num : (2:ℚ) ≠ 0), ← zpow_natCast]
          congr 1
          omega
    _ ≤ (a : ℚ) / b * 2 ^ ((52 : Int) - E) :=
          mul_le_mul_of_nonneg_right hlo (le_of_lt (two_zpow_pos _))
  have hshi : (a : ℚ) / b * 2 ^ ((52 : Int) - E) < (2 : ℚ) ^ (53 : Nat) := by
    calc (a : ℚ) / b * 2 ^ ((52 : Int) - E)
        < (2 : ℚ) ^ (E + 1) * 2 ^ ((52 : Int) - E) :=
          mul_lt_mul_of_pos_right hhi (two_zpow_pos _)
    _ = (2 : ℚ) ^ (53 : Nat) := by
          rw [← zpow_add₀ (by norm_num : (2:ℚ) ≠ 0), ← zpow_natCast]
          congr 1
          omega
  have hden0 : (0 : ℚ) < ((b * 2 ^ (E - 52).toNat : Nat) : ℚ) := by
    have : 1 ≤ b * 2 ^ (E - 52).toNat := Nat.one_le_iff_ne_zero.mpr (by positivity)
    exact_mod_cast this
  constructor
  · have : ((2 ^ 52 * (b * 2 ^ (E - 52).toNat) : Nat) : ℚ) ≤
        ((a * 2 ^ ((52 : Int) - E).toNat : Nat) : ℚ) := by
      rw [hprod]
      calc ((2 ^ 52 * (b * 2 ^ (E - 52).toNat) : Nat) : ℚ)
          = ((b * 2 ^ (E - 52).toNat : Nat) : ℚ) * (2 : ℚ) ^ (52 : Nat) := by
            push_cast; ring
      _ ≤ ((b * 2 ^ (E - 52).toNat : Nat) : ℚ) *
            ((a : ℚ) / b * 2 ^ ((52 : Int) - E)) :=
            mul_le_mul_of_nonneg_left hslo (le_of_lt hden0)
    exact_mod_cast this
  · have : ((a * 2 ^ ((52 : Int) - E).toNat : Nat) : ℚ) <
        ((2 ^ 53 * (b * 2 ^ (E - 52).toNat) : Nat) : ℚ) := by
      rw [hprod]
      calc ((b * 2 ^ (E - 52).toNat : Nat) : ℚ) *
            ((a : ℚ) / b * 2 ^ ((52 : Int) - E))
          < ((b * 2 ^ (E - 52).toNat : Nat) : ℚ) * (2 : ℚ) ^ (53 : Nat) :=
            mul_lt_mul_of_pos_left hshi hden0
      _ = ((2 ^ 53 * (b * 2 ^ (E - 52).toNat) : Nat) : ℚ) := by
            push_cast; ring
    exact_mod_cast this

lemma rnInt_ge (num den : Nat) : num / den ≤ rnInt num den := by
  rw [rnInt]
  split
  · exact le_refl _
  · split
    · omega
    · split <;> omega

lemma rnInt_le (num den : Nat) : rnInt num den ≤ num / den + 1 := by
  rw [rnInt]
  split
  · omega
  · split
    · omega
    · split <;> omega

/-- Significand bounds of a rounded quotient. -/
lemma roundFloat_m_bounds {a b : Nat} (ha : 1 ≤ a) (hb : 1 ≤ b) :
    2 ^ 52 ≤ (roundFloat a b).1 ∧ (roundFloat a b).1 ≤ 2 ^ 53 := by
  obtain ⟨hlo, hhi⟩ := roundFloat_scaled_bounds ha hb
  have hden0 : 0 < b * 2 ^ (ilog2Rat a b - 52).toNat := by positivity
  constructor
  · show 2 ^ 52 ≤ rnInt (a * 2 ^ ((52 : Int) - ilog2Rat a b).toNat)
      (b * 2 ^ (ilog2Rat a b - 52).toNat)
    refine le_trans ?_ (rnInt_ge _ _)
    rw [Nat.le_div_iff_mul_le hden0]
    exact hlo
  · show rnInt (a * 2 ^ ((52 : Int) - ilog2Rat a b).toNat)
      (b * 2 ^ (ilog2Rat a b - 52).toNat) ≤ 2 ^ 53
    refine le_trans (rnInt_le _ _) ?_
    have hq : a * 2 ^ ((52 : Int) - ilog2Rat a b).toNat /
        (b * 2 ^ (ilog2Rat a b - 52).toNat) < 2 ^ 53 := by
      rw [Nat.div_lt_iff_lt_mul hden0]
      calc a * 2 ^ ((52 : Int) - ilog2Rat a b).toNat
          < 2 ^ 53 * (b * 2 ^ (ilog2Rat a b - 52).toNat) := hhi
      _ = 2 ^ 53 * (b * 2 ^ (ilog2Rat a b - 52).toNat) := rfl
    omega

lemma natDiv_mono_of_cross {n1 d1 n2 d2 : Nat} (hd1 : 0 < d1) (hd2 : 0 < d2)
    (h : n1 * d2 ≤ n2 * d1) : n1 / d1 ≤ n2 / d2 := by
  rw [Nat.le_div_iff_mul_le hd2]
  have h1 : n1 / d1 * d1 ≤ n1 := Nat.div_mul_le_self n1 d1
  have h4 : (n1 / d1 * d2) * d1 ≤ n2 * d1 := by
    calc (n1 / d1 * d2) * d1 = (n1 / d1 * d1) * d2 := by ring
    _ ≤ n1 * d2 := Nat.mul_le_mul_right d2 h1
    _ ≤ n2 * d1 := h
  exact Nat.le_of_mul_le_mul_right h4 hd1

/-- Round-to-nearest-even is monotone. -/
lemma rnInt_mono {n1 d1 n2 d2 : Nat} (hd1 : 0 < d1) (hd2 : 0 < d2)
    (h : n1 * d2 ≤ n2 * d1) : rnInt n1 d1 ≤ rnInt n2 d2 := by
  have hq : n1 / d1 ≤ n2 / d2 := natDiv_mono_of_cross hd1 hd2 h
  rcases Nat.lt_or_ge (n1 / d1) (n2 / d2) with hlt | hge
  · have h1 := rnInt_le n1 d1
    have h2 := rnInt_ge n2 d2
    omega
  · have hqeq : n1 / d1 = n2 / d2 := le_antisymm hq hge
    have hdm1 : d1 * (n1 / d1) + n1 % d1 = n1 := Nat.div_add_mod n1 d1
    have hdm2 : d2 * (n2 / d2) + n2 % d2 = n2 := Nat.div_add_mod n2 d2
    have hr : (n1 % d1) * d2 ≤ (n2 % d2) * d1 := by
      have e1 : (d1 * (n1 / d1) + n1 % d1) * d2 =
          (n1 / d1) * (d1 * d2) + (n1 % d1) * d2 := by ring
      have e2 : (d2 * (n2 / d2) + n2 % d2) * d1 =
          (n2 / d2) * (d1 * d2) + (n2 % d2) * d1 := by ring
      have e3 : (d1 * (n1 / d1) + n1 % d1) * d2 ≤
          (d2 * (n2 / d2) + n2 % d2) * d1 := by
        rw [hdm1, hdm2]
        exact h
      rw [e1, e2, hqeq] at e3
      omega
    have hc1 : 2 * (n1 % d1) = d1 → d2 ≤ 2 * (n2 % d2) := by
      intro he
      have h1 : d1 * d2 ≤ d1 * (2 * (n2 % d2)) := by
        calc d1 * d2 = (2 * (n1 % d1)) * d2 := by rw [he]
        _ = 2 * ((n1 % d1) * d2) := by ring
        _ ≤ 2 * ((n2 % d2) * d1) := Nat.mul_le_mul_left 2 hr
        _ = d1 * (2 * (n2 % d2)) := by ring
      exact Nat.le_of_mul_le_mul_left h1 hd1
    have hc2 : d1 < 2 * (n1 % d1) → d2 < 2 * (n2 % d2) := by
      intro he
      have h1 : d1 * d2 < d1 * (2 * (n2 % d2)) := by
        calc d1 * d2 < (2 * (n1 % d1)) * d2 := mul_lt_mul_of_pos_right he hd2
        _ = 2 * ((n1 % d1) * d2) := by ring
        _ ≤ 2 * ((n2 % d2) * d1) := Nat.mul_le_mul_left 2 hr
        _ = d1 * (2 * (n2 % d2)) := by ring
      exact Nat.lt_of_mul_lt_mul_left h1
    by_cases b1 : 2 * (n1 % d1) < d1
    · have hL : rnInt n1 d1 = n1 / d1 := by rw [rnInt, if_pos b1]
      have h2 := rnInt_ge n2 d2
      omega
    · by_cases b2 : d1 < 2 * (n1 % d1)
      · have hL : rnInt n1 d1 = n1 / d1 + 1 := by
          rw [rnInt, if_neg b1, if_pos b2]
        have hr2 : d2 < 2 * (n2 % d2) := hc2 b2
        have hR : rnInt n2 d2 = n2 / d2 + 1 := by
          rw [rnInt, if_neg (by omega), if_pos hr2]
        omega
      · have hties : 2 * (n1 % d1) = d1 := by omega
        have hr2 : d2 ≤ 2 * (n2 % d2) := hc1 hties
        rcases Nat.lt_or_ge d2 (2 * (n2 % d2)) with hgt | hge2
        · have hR : rnInt n2 d2 = n2 / d2 + 1 := by
            rw [rnInt, if_neg (by omega), if_pos hgt]
          have h1 := rnInt_le n1 d1
          omega
        · have hties2 : 2 * (n2 % d2) = d2 := by omega
          by_cases hpar : n1 / d1 % 2 = 0
          · have hL : rnInt n1 d1 = n1 / d1 := by
              rw [rnInt, if_neg b1, if_neg (by omega), if_pos hpar]
            have h2 := rnInt_ge n2 d2
            omega
          · have hL : rnInt n1 d1 = n1 / d1 + 1 := by
              rw [rnInt, if_neg b1, if_neg (by omega), if_neg hpar]
            have hpar2 : ¬ (n2 / d2 % 2 = 0) := by rw [← hqeq]; exact hpar
            have hR : rnInt n2 d2 = n2 / d2 + 1 := by
              rw [rnInt, if_neg (by omega), if_neg (by omega), if_neg hpar2]
            omega

lemma fval_roundFloat_ge {a b : Nat} (ha : 1 ≤ a) (hb : 1 ≤ b) :
    (2 : ℚ) ^ ilog2Rat a b ≤ fval (roundFloat a b) := by
  have hm := (roundFloat_m_bounds ha hb).1
  have hmq : ((2 : ℚ) ^ (52 : Nat)) ≤ ((roundFloat a b).1 : ℚ) := by
    exact_mod_cast hm
  calc (2 : ℚ) ^ ilog2Rat a b
      = (2 : ℚ) ^ (52 : Nat) * 2 ^ (ilog2Rat a b - 52) := by
        rw [← zpow_natCast (2 : ℚ) 52, ← zpow_add₀ (by norm_num : (2:ℚ) ≠ 0)]
        congr 1
        omega
  _ ≤ ((roundFloat a b).1 : ℚ) * 2 ^ (ilog2Rat a b - 52) :=
        mul_le_mul_of_nonneg_right hmq (le_of_lt (two_zpow_pos _))
  _ = fval (roundFloat a b) := rfl

lemma fval_roundFloat_le {a b : Nat} (ha : 1 ≤ a) (hb : 1 ≤ b) :
    fval (roundFloat a b) ≤ (2 : ℚ) ^ (ilog2Rat a b + 1) := by
  have hm := (roundFloat_m_bounds ha hb).2
  have hmq : ((roundFloat a b).1 : ℚ) ≤ ((2 : ℚ) ^ (53 : Nat)) := by
    exact_mod_cast hm
  calc fval (roundFloat a b)
      = ((roundFloat a b).1 : ℚ) * 2 ^ (ilog2Rat a b - 52) := rfl
  _ ≤ (2 : ℚ) ^ (53 : Nat) * 2 ^ (ilog2Rat a b - 52) :=
        mul_le_mul_of_nonneg_right hmq (le_of_lt (two_zpow_pos _))
  _ = (2 : ℚ) ^ (ilog2Rat a b + 1) := by
        rw [← zpow_natCast (2 : ℚ) 53, ← zpow_add₀ (by norm_num : (2:ℚ) ≠ 0)]
        congr 1
        omega

/-- Correctly rounded division is monotone in its exact value. -/
lemma fval_roundFloat_mono {a1 b1 a2 b2 : Nat} (ha1 : 1 ≤ a1) (hb1 : 1 ≤ b1)
    (ha2 : 1 ≤ a2) (hb2 : 1 ≤ b2) (h : a1 * b2 ≤ a2 * b1) :
    fval (roundFloat a1 b1) ≤ fval (roundFloat a2 b2) := by
  have hb1q : (0 : ℚ) < b1 := by exact_mod_cast hb1
  have hb2q : (0 : ℚ) < b2 := by exact_mod_cast hb2
  have hqle : (a1 : ℚ) / b1 ≤ (a2 : ℚ) / b2 := by
    rw [div_le_div_iff₀ hb1q hb2q]
    exact_mod_cast h
  have hE1 := ilog2Rat_spec ha1 hb1
  have hE2 := ilog2Rat_spec ha2 hb2
  have hEle : ilog2Rat a1 b1 ≤ ilog2Rat a2 b2 := by
    have hz : (2 : ℚ) ^ ilog2Rat a1 b1 < 2 ^ (ilog2Rat a2 b2 + 1) :=
      lt_of_le_of_lt (le_trans hE1.1 hqle) hE2.2
    have := (zpow_lt_zpow_iff_right₀ (by norm_num : (1:ℚ) < 2)).mp hz
    omega
  rcases eq_or_lt_of_le hEle with hEeq | hElt
  · have hcross : (a1 * 2 ^ ((52 : Int) - ilog2Rat a1 b1).toNat) *
        (b2 * 2 ^ (ilog2Rat a1 b1 - 52).toNat) ≤
        (a2 * 2 ^ ((52 : Int) - ilog2Rat a1 b1).toNat) *
        (b1 * 2 ^ (ilog2Rat a1 b1 - 52).toNat) := by
      have e1 : (a1 * 2 ^ ((52 : Int) - ilog2Rat a1 b1).toNat) *
          (b2 * 2 ^ (ilog2Rat a1 b1 - 52).toNat) =
          (a1 * b2) * (2 ^ ((52 : Int) - ilog2Rat a1 b1).toNat *
            2 ^ (ilog2Rat a1 b1 - 52).toNat) := by ring
      have e2 : (a2 * 2 ^ ((52 : Int) - ilog2Rat a1 b1).toNat) *
          (b1 * 2 ^ (ilog2Rat a1 b1 - 52).toNat) =
          (a2 * b1) * (2 ^ ((52 : Int) - ilog2Rat a1 b1).toNat *
            2 ^ (ilog2Rat a1 b1 - 52).toNat) := by ring
      rw [e1, e2]
      exact Nat.mul_le_mul_right _ h
    have hm : (roundFloat a1 b1).1 ≤ (roundFloat a2 b2).1 := by
      show rnInt (a1 * 2 ^ ((52 : Int) - ilog2Rat a1 b1).toNat)
          (b1 * 2 ^ (ilog2Rat a1 b1 - 52).toNat) ≤
        rnInt (a2 * 2 ^ ((52 : Int) - ilog2Rat a2 b2).toNat)
          (b2 * 2 ^ (ilog2Rat a2 b2 - 52).toNat)
      rw [← hEeq]
      exact rnInt_mono (by positivity) (by positivity) hcross
    calc fval (roundFloat a1 b1)
        = ((roundFloat a1 b1).1 : ℚ) * 2 ^ (ilog2Rat a1 b1 - 52) := rfl
    _ ≤ ((roundFloat a2 b2).1 : ℚ) * 2 ^ (ilog2Rat a1 b1 - 52) :=
          mul_le_mul_of_nonneg_right (by exact_mod_cast hm)
            (le_of_lt (two_zpow_pos _))
    _ = fval (roundFloat a2 b2) := by
          rw [hEeq]
          rfl
  · calc fval (roundFloat a1 b1)
        ≤ 2 ^ (ilog2Rat a1 b1 + 1) := fval_roundFloat_le ha1 hb1
    _ ≤ 2 ^ ilog2Rat a2 b2 := zpow_le_zpow_right₀ (by norm_num) (by omega)
    _ ≤ fval (roundFloat a2 b2) := fval_roundFloat_ge ha2 hb2

lemma dyadicPair_val (m : Nat) (E : Int) :
    ((dyadicPair m E).1 : ℚ) / ((dyadicPair m E).2 : ℚ) = fval (m, E) := by
  show ((m * 2 ^ (E - 52).toNat : Nat) : ℚ) /
      ((2 ^ ((52 : Int) - E).toNat : Nat) : ℚ) = (m : ℚ) * 2 ^ (E - 52)
  push_cast
  rw [mul_div_assoc]
  congr 1
  have hz := zpow_toNat_div (E - 52)
  rw [show ((-(E - 52)).toNat) = ((52 : Int) - E).toNat from by omega] at hz
  exact hz

lemma dyadicPair_snd_pos (m : Nat) (E : Int) : 0 < (dyadicPair m E).2 := by
  show 0 < 2 ^ ((52 : Int) - E).toNat
  positivity

lemma dyadicPair_fst_pos {m : Nat} (hm : 1 ≤ m) (E : Int) : 0 < (dyadicPair m E).1 := by
  show 0 < m * 2 ^ (E - 52).toNat
  positivity

/-- The cross-multiplied form of `fval x1 ≤ fval x2` on the natural-number
quotients that `dyadicPair` produces. -/
lemma dyadicPair_cross {x1 x2 : Nat × Int} (h : fval x1 ≤ fval x2) :
    (dyadicPair x1.1 x1.2).1 * (dyadicPair x2.1 x2.2).2 ≤
      (dyadicPair x2.1 x2.2).1 * (dyadicPair x1.1 x1.2).2 := by
  have hp1 := dyadicPair_val x1.1 x1.2
  have hp2 := dyadicPair_val x2.1 x2.2
  have hq : ((dyadicPair x1.1 x1.2).1 : ℚ) / ((dyadicPair x1.1 x1.2).2 : ℚ) ≤
      ((dyadicPair x2.1 x2.2).1 : ℚ) / ((dyadicPair x2.1 x2.2).2 : ℚ) := by
    rw [hp1, hp2]
    exact h
  rw [div_le_div_iff₀ (by exact_mod_cast dyadicPair_snd_pos x1.1 x1.2)
    (by exact_mod_cast dyadicPair_snd_pos x2.1 x2.2)] at hq
  exact_mod_cast hq

/-- Binary64 multiplication by 100 is monotone in the float's value. -/
lemma fval_mul100_mono {x1 x2 : Nat × Int} (hm1 : 1 ≤ x1.1) (hm2 : 1 ≤ x2.1)
    (h : fval x1 ≤ fval x2) : fval (mul100 x1) ≤ fval (mul100 x2) := by
  have hcross := dyadicPair_cross h
  apply fval_roundFloat_mono
  · have := dyadicPair_fst_pos hm1 x1.2
    omega
  · have := dyadicPair_snd_pos x1.1 x1.2
    omega
  · have := dyadicPair_fst_pos hm2 x2.2
    omega
  · have := dyadicPair_snd_pos x2.1 x2.2
    omega
  · calc ((dyadicPair x1.1 x1.2).1 * 100) * (dyadicPair x2.1 x2.2).2
        = 100 * ((dyadicPair x1.1 x1.2).1 * (dyadicPair x2.1 x2.2).2) := by ring
    _ ≤ 100 * ((dyadicPair x2.1 x2.2).1 * (dyadicPair x1.1 x1.2).2) :=
        Nat.mul_le_mul_left 100 hcross
    _ = ((dyadicPair x2.1 x2.2).1 * 100) * (dyadicPair x1.1 x1.2).2 := by ring

/-- Truncation toward zero is monotone in the float's value. -/
lemma truncFloat_mono {x1 x2 : Nat × Int} (h : fval x1 ≤ fval x2) :
    truncFloat x1 ≤ truncFloat x2 :=
  natDiv_mono_of_cross (dyadicPair_snd_pos x1.1 x1.2)
    (dyadicPair_snd_pos x2.1 x2.2) (dyadicPair_cross h)

/-- The modelled progress expression is monotone in the chapter counter. -/
lemma pyProgress_mono {K j1 j2 : Nat} (hj : j1 ≤ j2) :
    pyProgress j1 K ≤ pyProgress j2 K := by
  rw [pyProgress, pyProgress]
  by_cases hK : K = 0
  · rw [if_pos (Or.inr hK), if_pos (Or.inr hK)]
  · by_cases h1 : j1 = 0
    · rw [if_pos (Or.inl h1)]
      exact Nat.zero_le _
    · rw [if_neg (by omega), if_neg (by omega)]
      apply truncFloat_mono
      apply fval_mul100_mono
      · have := (@roundFloat_m_bounds j1 K (by omega) (by omega)).1
        omega
      · have := (@roundFloat_m_bounds j2 K (by omega) (by omega)).1
        omega
      · exact fval_roundFloat_mono (by omega) (by omega) (by omega) (by omega)
          (Nat.mul_le_mul_right K hj)

/-- The value of the binary64 constant `100.0`. -/
lemma fval_roundFloat_100 : fval (roundFloat 100 1) = 100 := by
  have h : roundFloat 100 1 = (7036874417766400, 6) := by decide
  rw [h]
  show ((7036874417766400 : ℕ) : ℚ) * 2 ^ ((6 : Int) - 52) = 100
  rw [show ((6 : Int) - 52) = -(46 : Int) from by decide, zpow_neg,
    show ((46 : Int)) = ((46 : Nat) : Int) from rfl, zpow_natCast]
  norm_num

/-- The modelled progress value never exceeds 100 when `j < K`. -/
lemma pyProgress_le_100 {j K : Nat} (hjK : j < K) : pyProgress j K ≤ 100 := by
  rw [pyProgress]
  by_cases h0 : j = 0 ∨ K = 0
  · rw [if_pos h0]
    omega
  · rw [if_neg h0]
    have hj1 : 1 ≤ j := by omega
    have hK1 : 1 ≤ K := by omega
    have hE : ilog2Rat j K + 1 ≤ 0 := by
      obtain ⟨hlo, hhi⟩ := ilog2Rat_spec hj1 hK1
      have hKq : (0 : ℚ) < K := by exact_mod_cast hK1
      have hq1 : (j : ℚ) / K < 1 := by
        rw [div_lt_one hKq]
        exact_mod_cast hjK
      have hz : (2 : ℚ) ^ ilog2Rat j K < 2 ^ (0 : Int) := by
        rw [zpow_zero]
        exact lt_of_le_of_lt hlo hq1
      have := (zpow_lt_zpow_iff_right₀ (by norm_num : (1:ℚ) < 2)).mp hz
      omega
    have hf1 : fval (roundFloat j K) ≤ 1 := by
      calc fval (roundFloat j K)
          ≤ 2 ^ (ilog2Rat j K + 1) := fval_roundFloat_le hj1 hK1
      _ ≤ 2 ^ (0 : Int) := zpow_le_zpow_right₀ (by norm_num) hE
      _ = 1 := zpow_zero 2
    have hm1 : 1 ≤ (roundFloat j K).1 := by
      have := (roundFloat_m_bounds hj1 hK1).1
      omega
    have h152 : fval ((1 : Nat), (52 : Int)) = 1 := by
      show ((1 : Nat) : ℚ) * 2 ^ ((52 : Int) - 52) = 1
      norm_num
    have hple : (dyadicPair (roundFloat j K).1 (roundFloat j K).2).1 ≤
        (dyadicPair (roundFloat j K).1 (roundFloat j K).2).2 := by
      have hcross := @dyadicPair_cross (roundFloat j K) ((1 : Nat), (52 : Int))
        (by rw [h152]; exact hf1)
      have hd1 : (dyadicPair (1 : Nat) (52 : Int)).1 = 1 := by decide
      have hd2 : (dyadicPair (1 : Nat) (52 : Int)).2 = 1 := by decide
      rw [hd1, hd2] at hcross
      omega
    have h100 : fval (mul100 (roundFloat j K)) ≤ fval (roundFloat 100 1) := by
      apply fval_roundFloat_mono
      · have := dyadicPair_fst_pos hm1 (roundFloat j K).2
        omega
      · have := dyadicPair_snd_pos (roundFloat j K).1 (roundFloat j K).2
        omega
      · omega
      · omega
      · calc (dyadicPair (roundFloat j K).1 (roundFloat j K).2).1 * 100 * 1
            = 100 * (dyadicPair (roundFloat j K).1 (roundFloat j K).2).1 := by ring
        _ ≤ 100 * (dyadicPair (roundFloat j K).1 (roundFloat j K).2).2 :=
            Nat.mul_le_mul_left 100 hple
    have hfin : fval (mul100 (roundFloat j K)) ≤ 100 := by
      rw [fval_roundFloat_100] at h100
      exact h100
    have h100v : fval ((100 : Nat), (52 : Int)) = 100 := by
      show ((100 : Nat) : ℚ) * 2 ^ ((52 : Int) - 52) = 100
      norm_num
    have hcross2 := @dyadicPair_cross (mul100 (roundFloat j K)) ((100 : Nat), (52 : Int))
      (by rw [h100v]; exact hfin)
    have hd1 : (dyadicPair (100 : Nat) (52 : Int)).1 = 100 := by decide
    have hd2 : (dyadicPair (100 : Nat) (52 : Int)).2 = 1 := by decide
    rw [hd1, hd2] at hcross2
    calc truncFloat (mul100 (roundFloat j K))
        ≤ 100 / 1 :=
          natDiv_mono_of_cross
            (dyadicPair_snd_pos (mul100 (roundFloat j K)).1
              (mul100 (roundFloat j K)).2) (by omega)
            (by
              calc (dyadicPair (mul100 (roundFloat j K)).1
                    (mul100 (roundFloat j K)).2).1 * 1
                  ≤ 100 * (dyadicPair (mul100 (roundFloat j K)).1
                    (mul100 (roundFloat j K)).2).2 := by omega
              _ = 100 * (dyadicPair (mul100 (roundFloat j K)).1
                    (mul100 (roundFloat j K)).2).2 := rfl)
    _ = 100 := rfl

/-! ### Batch orchestrator: `_generate_ebook_thread` (app.pyw lines 1646-1721) -/

/-- One chapter as handed to the batch thread: `{'title': ..., 'content': ...}`. -/
structure Chapter where
  title : String
  content : String
  deriving DecidableEq

/-- Embedding of `not content.strip()` (line 1676). -/
def blankContent (s : String) : Bool := pyStrip s == ""

/-- Observable events of the batch thread, in emission order.  Log lines are
identified by which `message_queue.put` produced them; the index `i` is the
1-based chapter number. -/
inductive BatchEvent where
  | startLog (total : Nat) : BatchEvent
  | statusUpdate (done total : Nat) : BatchEvent
  | progress (pct : Nat) : BatchEvent
  | skipLog (i : Nat) : BatchEvent
  | processLog (i : Nat) : BatchEvent
  | doneLog (i : Nat) : BatchEvent
  | tagFailLog (i : Nat) : BatchEvent
  | genFailLog (i : Nat) : BatchEvent
  | completeStatus (total : Nat) : BatchEvent
  | completeLog : BatchEvent
  | askOpenDir : BatchEvent
  deriving DecidableEq

/-- One iteration of the `for i, chapter in enumerate(chapters, 1)` loop
(lines 1663-1695).  `jobOk i` is the oracle for `process_text_to_mp3`
returning `True` on chapter `i`, `tagOk i` for `update_mp3_tag`.  The progress
percentage `int((i - 1) / len(chapters) * 100)` is `pyProgress (i - 1) total`,
its binary64 evaluation. -/
def batchStep (jobOk tagOk : Nat → Bool) (total i : Nat) (ch : Chapter) :
    List BatchEvent :=
  [.progress (pyProgress (i - 1) total), .statusUpdate (i - 1) total] ++
  (if blankContent ch.content then [.skipLog i]
   else
     .processLog i ::
       (if jobOk i then (if tagOk i then [.doneLog i] else [.tagFailLog i])
        else [.genFailLog i]))

/-- The chapter loop, starting at 1-based index `i`. -/
def batchLoop (jobOk tagOk : Nat → Bool) (total : Nat) :
    Nat → List Chapter → List BatchEvent
  | _, [] => []
  | i, ch :: rest =>
    batchStep jobOk tagOk total i ch ++ batchLoop jobOk tagOk total (i + 1) rest

/-- Embedding of `_generate_ebook_thread` (lines 1646-1721): start log and
status, the chapter loop, then the unconditional completion events of lines
1696-1712 (`progress 100`, completion status/logs, the open-directory
dialog).  Since `process_text_to_mp3` and `update_mp3_tag` catch their own
exceptions, no loop iteration aborts the batch. -/
def generate_ebook_thread (chapters : List Chapter) (jobOk tagOk : Nat → Bool) :
    List BatchEvent :=
  [.startLog chapters.length, .statusUpdate 0 chapters.length] ++
  batchLoop jobOk tagOk chapters.length 1 chapters ++
  [.progress 100, .completeStatus chapters.length, .completeLog, .askOpenDir]

/-- The numeric progress events of a batch event stream, in order. -/
def progressValues (evs : List BatchEvent) : List Nat :=
  evs.filterMap fun e =>
    match e with
    | .progress n => some n
    | _ => none

lemma progressValues_append (a b : List BatchEvent) :
    progressValues (a ++ b) = progressValues a ++ progressValues b :=
  List.filterMap_append a b _

lemma progressValues_batchStep (jobOk tagOk : Nat → Bool) (total i : Nat)
    (ch : Chapter) :
    progressValues (batchStep jobOk tagOk total i ch) = [pyProgress (i - 1) total] := by
  rw [batchStep, progressValues_append]
  by_cases hb : blankContent ch.content
  · rw [if_pos hb]; rfl
  · rw [if_neg hb]
    by_cases hj : jobOk i
    · rw [if_pos hj]
      by_cases ht : tagOk i
      · rw [if_pos ht]; rfl
      · rw [if_neg ht]; rfl
    · rw [if_neg hj]; rfl

lemma progressValues_batchLoop (jobOk tagOk : Nat → Bool) (total : Nat) :
    ∀ (chs : List Chapter) (i : Nat), 1 ≤ i →
      progressValues (batchLoop jobOk tagOk total i chs) =
        (List.range' (i - 1) chs.length).map fun j => pyProgress j total := by
  intro chs
  induction chs with
  | nil => intro i _; rfl
  | cons ch rest ih =>
    intro i hi
    rw [batchLoop, progressValues_append, progressValues_batchStep,
      ih (i + 1) (by omega), List.length_cons, List.range'_succ, List.map_cons,
      List.singleton_append]
    rw [show i + 1 - 1 = i - 1 + 1 from by omega]

/-- C6 counterexample: in a batch of 100 chapters, the progress event emitted
immediately before the 30th chapter is 28 — the binary64 evaluation of
`int(29 / 100 * 100)`, where `29 / 100` rounds to slightly below `0.29` and
the product to `28.999999999999996` — not `floor(29 * 100 / 100) = 29` as the
claim states. -/
theorem batch_progress_counterexample :
    pyProgress 29 100 = 28
    ∧ (progressValues (generate_ebook_thread
        (List.replicate 100 ⟨"t", "x"⟩) (fun _ => true) (fun _ => true)))[30 - 1]? =
      some 28
    ∧ (30 - 1) * 100 / (List.replicate 100 (Chapter.mk "t" "x")).length = 29
    ∧ (28 : Nat) ≠ 29 := by
  have hpy : pyProgress 29 100 = 28 := by decide
  refine ⟨hpy, ?_, by decide, by decide⟩
  have hcf : progressValues (generate_ebook_thread
      (List.replicate 100 ⟨"t", "x"⟩) (fun _ => true) (fun _ => true)) =
      ((List.range 100).map fun j => pyProgress j 100) ++ [100] := by
    rw [generate_ebook_thread, progressValues_append, progressValues_append,
      progressValues_batchLoop _ _ _ _ 1 (le_refl 1)]
    rw [show (List.replicate 100 (Chapter.mk "t" "x")).length = 100 from by simp]
    rw [show (1 : Nat) - 1 = 0 from rfl, ← List.range_eq_range']
    rfl
  rw [hcf]
  have hlen : 30 - 1 < ((List.range 100).map fun j => pyProgress j 100).length := by
    rw [List.length_map, List.length_range]
    omega
  rw [List.getElem?_append, if_pos hlen, List.getElem?_map,
    List.getElem?_range (by omega : 30 - 1 < 100)]
  show some (pyProgress (30 - 1) 100) = some 28
  rw [show (30 : Nat) - 1 = 29 from rfl, hpy]

/-- C6 (amended): during a batch of `total_count` chapters, immediately before
processing the i-th chapter the Orchestrator emits a progress event equal to
the binary64 evaluation of `int((i-1) / total_count * 100)` — which can fall
one below the exact `floor((i-1) * 100 / total_count)` — the progress values
emitted over the batch are monotonically non-decreasing, and the final
progress event of the batch equals 100. -/
theorem batch_progress (chapters : List Chapter) (jobOk tagOk : Nat → Bool) :
    progressValues (generate_ebook_thread chapters jobOk tagOk) =
      ((List.range chapters.length).map fun j => pyProgress j chapters.length) ++ [100]
    ∧ List.Pairwise (· ≤ ·) (progressValues (generate_ebook_thread chapters jobOk tagOk))
    ∧ (progressValues (generate_ebook_thread chapters jobOk tagOk)).getLast? = some 100
    ∧ ∀ i, 1 ≤ i → i ≤ chapters.length →
        (progressValues (generate_ebook_thread chapters jobOk tagOk))[i - 1]? =
          some (pyProgress (i - 1) chapters.length) := by
  have hcf : progressValues (generate_ebook_thread chapters jobOk tagOk) =
      ((List.range chapters.length).map fun j => pyProgress j chapters.length) ++
        [100] := by
    rw [generate_ebook_thread, progressValues_append, progressValues_append,
      progressValues_batchLoop _ _ _ chapters 1 (le_refl 1)]
    rw [show (1 : Nat) - 1 = 0 from rfl, ← List.range_eq_range']
    rfl
  have hbound : ∀ x ∈ (List.range chapters.length).map
      (fun j => pyProgress j chapters.length), x ≤ 100 := by
    intro x hx
    obtain ⟨j, hj, rfl⟩ := List.mem_map.mp hx
    exact pyProgress_le_100 (List.mem_range.mp hj)
  refine ⟨hcf, ?_, ?_, ?_⟩
  · rw [hcf]
    apply List.pairwise_append.mpr
    refine ⟨?_, List.pairwise_singleton _ _, ?_⟩
    · rw [List.pairwise_map]
      apply List.Pairwise.imp ?_ (List.pairwise_lt_range chapters.length)
      intro a b hab
      exact pyProgress_mono (le_of_lt hab)
    · intro x hx y hy
      rw [List.mem_singleton.mp hy]
      exact hbound x hx
  · rw [hcf, List.getLast?_concat]
  · intro i hi1 hi2
    rw [hcf]
    have hlen : i - 1 < ((List.range chapters.length).map
        fun j => pyProgress j chapters.length).length := by
      rw [List.length_map, List.length_range]
      omega
    rw [List.getElem?_append, if_pos hlen, List.getElem?_map,
      List.getElem?_range (by omega)]
    rfl

theorem batch_progress_witness :
    (progressValues (generate_ebook_thread
        [⟨"a", "x"⟩, ⟨"b", "y"⟩] (fun _ => true) (fun _ => true)))[2 - 1]? =
      some (pyProgress (2 - 1) ([⟨"a", "x"⟩, ⟨"b", "y"⟩] : List Chapter).length) :=
  (batch_progress [⟨"a", "x"⟩, ⟨"b", "y"⟩] (fun _ => true)
    (fun _ => true)).2.2.2 2 (by decide) (by decide)

lemma skip_mem_batchStep {jobOk tagOk : Nat → Bool} {total i m : Nat} {ch : Chapter} :
    BatchEvent.skipLog m ∈ batchStep jobOk tagOk total i ch ↔
      m = i ∧ blankContent ch.content = true := by
  cases hbc : blankContent ch.content <;> cases hjo : jobOk i <;>
    cases hto : tagOk i <;> simp [batchStep, hbc, hjo, hto]

lemma process_mem_batchStep {jobOk tagOk : Nat → Bool} {total i m : Nat} {ch : Chapter} :
    BatchEvent.processLog m ∈ batchStep jobOk tagOk total i ch ↔
      m = i ∧ blankContent ch.content = false := by
  cases hbc : blankContent ch.content <;> cases hjo : jobOk i <;>
    cases hto : tagOk i <;> simp [batchStep, hbc, hjo, hto]

lemma genFail_mem_batchStep {jobOk tagOk : Nat → Bool} {total i m : Nat} {ch : Chapter} :
    BatchEvent.genFailLog m ∈ batchStep jobOk tagOk total i ch ↔
      m = i ∧ blankContent ch.content = false ∧ jobOk i = false := by
  cases hbc : blankContent ch.content <;> cases hjo : jobOk i <;>
    cases hto : tagOk i <;> simp [batchStep, hbc, hjo, hto]

lemma tagFail_mem_batchStep {jobOk tagOk : Nat → Bool} {total i m : Nat} {ch : Chapter} :
    BatchEvent.tagFailLog m ∈ batchStep jobOk tagOk total i ch ↔
      m = i ∧ blankContent ch.content = false ∧ jobOk i = true ∧ tagOk i = false := by
  cases hbc : blankContent ch.content <;> cases hjo : jobOk i <;>
    cases hto : tagOk i <;> simp [batchStep, hbc, hjo, hto]

/-- Generic characterization of membership in the batch loop: an event lies in
the loop iff it lies in the step of some chapter, whose 1-based index is the
start index plus the chapter's position. -/
lemma mem_batchLoop_iff (jobOk tagOk : Nat → Bool) (total : Nat) (E : BatchEvent)
    (P : Nat → Chapter → Prop)
    (hstep : ∀ i ch, E ∈ batchStep jobOk tagOk total i ch ↔ P i ch) :
    ∀ (chs : List Chapter) (i : Nat),
      E ∈ batchLoop jobOk tagOk total i chs ↔
        ∃ j ch, chs[j]? = some ch ∧ P (i + j) ch := by
  intro chs
  induction chs with
  | nil =>
    intro i
    simp [batchLoop]
  | cons ch rest ih =>
    intro i
    rw [batchLoop, List.mem_append, hstep, ih (i + 1)]
    constructor
    · rintro (h | ⟨j, ch2, hj, hP⟩)
      · exact ⟨0, ch, by simp, by rw [Nat.add_zero]; exact h⟩
      · exact ⟨j + 1, ch2, by simpa using hj,
          by rw [show i + (j + 1) = (i + 1) + j from by omega]; exact hP⟩
    · rintro ⟨j, ch2, hj, hP⟩
      cases j with
      | zero =>
        left
        have : ch2 = ch := (by simpa using hj : ch = ch2).symm
        subst this
        rw [Nat.add_zero] at hP
        exact hP
      | succ j =>
        right
        exact ⟨j, ch2, by simpa using hj,
          by rw [show (i + 1) + j = i + (j + 1) from by omega]; exact hP⟩

lemma mem_thread_iff (E : BatchEvent) (chapters : List Chapter)
    (jobOk tagOk : Nat → Bool) :
    E ∈ generate_ebook_thread chapters jobOk tagOk ↔
      E ∈ ([.startLog chapters.length, .statusUpdate 0 chapters.length] :
          List BatchEvent)
      ∨ E ∈ batchLoop jobOk tagOk chapters.length 1 chapters
      ∨ E ∈ ([.progress 100, .completeStatus chapters.length, .completeLog,
          .askOpenDir] : List BatchEvent) := by
  rw [generate_ebook_thread, List.mem_append, List.mem_append, or_assoc]

/-- C5: in a batch, an empty-content chapter produces a skip log (and no
generation-failure log) while the batch continues; every non-empty chapter is
processed regardless of other chapters' skips or failures; a non-empty chapter
whose job fails after retry exhaustion gets a generation-failure log; and the
batch always runs to its completion events. -/
theorem batch_skip_and_continue (chapters : List Chapter) (jobOk tagOk : Nat → Bool)
    (j : Nat) (ch : Chapter) (hj : chapters[j]? = some ch) :
    (blankContent ch.content = true →
      BatchEvent.skipLog (j + 1) ∈ generate_ebook_thread chapters jobOk tagOk
      ∧ BatchEvent.genFailLog (j + 1) ∉ generate_ebook_thread chapters jobOk tagOk
      ∧ BatchEvent.processLog (j + 1) ∉ generate_ebook_thread chapters jobOk tagOk)
    ∧ (blankContent ch.content = false →
        BatchEvent.processLog (j + 1) ∈ generate_ebook_thread chapters jobOk tagOk)
    ∧ (blankContent ch.content = false → jobOk (j + 1) = false →
        BatchEvent.genFailLog (j + 1) ∈ generate_ebook_thread chapters jobOk tagOk)
    ∧ (generate_ebook_thread chapters jobOk tagOk).getLast? = some .askOpenDir := by
  have hskip := mem_batchLoop_iff jobOk tagOk chapters.length
    (BatchEvent.skipLog (j + 1))
    (fun i ch2 => j + 1 = i ∧ blankContent ch2.content = true)
    (fun i ch2 => skip_mem_batchStep) chapters 1
  have hproc := mem_batchLoop_iff jobOk tagOk chapters.length
    (BatchEvent.processLog (j + 1))
    (fun i ch2 => j + 1 = i ∧ blankContent ch2.content = false)
    (fun i ch2 => process_mem_batchStep) chapters 1
  have hgen := mem_batchLoop_iff jobOk tagOk chapters.length
    (BatchEvent.genFailLog (j + 1))
    (fun i ch2 => j + 1 = i ∧ blankContent ch2.content = false ∧ jobOk i = false)
    (fun i ch2 => genFail_mem_batchStep) chapters 1
  refine ⟨?_, ?_, ?_, ?_⟩
  · intro hblank
    refine ⟨?_, ?_, ?_⟩
    · rw [mem_thread_iff]
      right; left
      exact hskip.mpr ⟨j, ch, hj, by omega, hblank⟩
    · rw [mem_thread_iff]
      rintro (h | h | h)
      · simp at h
      · obtain ⟨j2, ch2, hj2, hidx, hbl2, _⟩ := hgen.mp h
        have : j2 = j := by omega
        subst this
        rw [hj] at hj2
        cases Option.some.inj hj2
        rw [hblank] at hbl2
        cases hbl2
      · simp at h
    · rw [mem_thread_iff]
      rintro (h | h | h)
      · simp at h
      · obtain ⟨j2, ch2, hj2, hidx, hbl2⟩ := hproc.mp h
        have : j2 = j := by omega
        subst this
        rw [hj] at hj2
        cases Option.some.inj hj2
        rw [hblank] at hbl2
        cases hbl2
      · simp at h
  · intro hblank
    rw [mem_thread_iff]
    right; left
    exact hproc.mpr ⟨j, ch, hj, by omega, hblank⟩
  · intro hblank hfail
    rw [mem_thread_iff]
    right; left
    refine hgen.mpr ⟨j, ch, hj, by omega, hblank, ?_⟩
    rw [show 1 + j = j + 1 from by omega]
    exact hfail
  · rw [generate_ebook_thread]
    rw [show ([BatchEvent.progress 100, BatchEvent.completeStatus chapters.length,
        BatchEvent.completeLog, BatchEvent.askOpenDir] : List BatchEvent) =
      [BatchEvent.progress 100, BatchEvent.completeStatus chapters.length,
        BatchEvent.completeLog] ++ [BatchEvent.askOpenDir] from rfl]
    rw [← List.append_assoc, List.getLast?_concat]

theorem batch_skip_and_continue_witness :
    (blankContent (Chapter.mk "b" " ").content = true →
      BatchEvent.skipLog (1 + 1) ∈ generate_ebook_thread
          [⟨"a", "x"⟩, ⟨"b", " "⟩, ⟨"c", "y"⟩] (fun _ => false) (fun _ => true)
      ∧ BatchEvent.genFailLog (1 + 1) ∉ generate_ebook_thread
          [⟨"a", "x"⟩, ⟨"b", " "⟩, ⟨"c", "y"⟩] (fun _ => false) (fun _ => true)
      ∧ BatchEvent.processLog (1 + 1) ∉ generate_ebook_thread
          [⟨"a", "x"⟩, ⟨"b", " "⟩, ⟨"c", "y"⟩] (fun _ => false) (fun _ => true))
    ∧ (blankContent (Chapter.mk "b" " ").content = false →
        BatchEvent.processLog (1 + 1) ∈ generate_ebook_thread
          [⟨"a", "x"⟩, ⟨"b", " "⟩, ⟨"c", "y"⟩] (fun _ => false) (fun _ => true))
    ∧ (blankContent (Chapter.mk "b" " ").content = false →
        (fun _ => false : Nat → Bool) (1 + 1) = false →
        BatchEvent.genFailLog (1 + 1) ∈ generate_ebook_thread
          [⟨"a", "x"⟩, ⟨"b", " "⟩, ⟨"c", "y"⟩] (fun _ => false) (fun _ => true))
    ∧ (generate_ebook_thread [⟨"a", "x"⟩, ⟨"b", " "⟩, ⟨"c", "y"⟩]
        (fun _ => false) (fun _ => true)).getLast? = some .askOpenDir :=
  batch_skip_and_continue [⟨"a", "x"⟩, ⟨"b", " "⟩, ⟨"c", "y"⟩]
    (fun _ => false) (fun _ => true) 1 ⟨"b", " "⟩ (by decide)

/-! ### Metadata tagger and single-chapter thread (app.pyw lines 458-503,
1420-1513) -/

/-- Embedding of `update_mp3_tag` (lines 458-503): the whole body is wrapped
in `try/except`, returning `True` when the tagging operations complete and
`False` when any of them raises — the exception never escapes the function.
`op` is the oracle for the body: `Except.ok` means every mutagen call
succeeded, `Except.error e` means one raised `e`.  Totality of this function
is the no-raise guarantee. -/
def update_mp3_tag {ε : Type} (op : Except ε Unit) : Bool :=
  match op with
  | .ok _ => true
  | .error _ => false

/-- Observable events of `_convert_single_chapter_thread`, in emission order.
Each log/status constructor stands for the specific `message_queue.put` call
of the source (its Chinese text is fixed); `deleteFile` stands for any removal
of an output file, which no line of the function performs. -/
inductive SingleEvent where
  | startLog : SingleEvent
  | convertingStatus : SingleEvent
  | progress (n : Nat) : SingleEvent
  | genStartLog : SingleEvent
  | tagStartLog : SingleEvent
  | doneLog : SingleEvent
  | elapsedLog : SingleEvent
  | doneStatus : SingleEvent
  | askOpenDir : SingleEvent
  | tagFailLog : SingleEvent
  | partialStatus : SingleEvent
  | genFailLog : SingleEvent
  | failStatus : SingleEvent
  | errorDialog : SingleEvent
  | deleteFile : SingleEvent
  deriving DecidableEq

/-- Embedding of `_convert_single_chapter_thread` (lines 1420-1513):
start log/status and `progress 0`; then the synthesis call (`synthOk` is the
oracle for `process_text_to_mp3` returning `True`); on success `progress 80`,
the tagging attempt, and either the completion events (`progress 100`, done
logs, open-directory dialog) or the tag-failure log `"添加ID3标签失败"` and the
partial-completion status `"转换部分完成: ID3标签失败"`; on synthesis failure
the failure log, failure status, and the error dialog.  No branch removes the
written audio or subtitle files. -/
def convert_single_chapter_thread {ε : Type} (synthOk : Bool)
    (tagOp : Except ε Unit) : List SingleEvent :=
  [.startLog, .convertingStatus, .progress 0, .genStartLog] ++
  (if synthOk then
    [.progress 80, .tagStartLog] ++
    (if update_mp3_tag tagOp then
      [.progress 100, .doneLog, .elapsedLog, .doneStatus, .askOpenDir]
     else
      [.tagFailLog, .partialStatus])
   else
    [.genFailLog, .failStatus, .errorDialog])

/-- C9: when synthesis succeeds and tagging fails, `update_mp3_tag` returns
`False` to its caller instead of raising, the thread logs the tag failure as a
warning and reports partial completion, and it emits no failure report for the
job itself — no error dialog, no generation-failure log or status — and
deletes no output file, so the synthesis success and its artifacts stand. -/
theorem tag_failure_keeps_success (ε : Type) (e : ε) :
    update_mp3_tag (Except.error e) = false
    ∧ convert_single_chapter_thread true (Except.error e) =
        [.startLog, .convertingStatus, .progress 0, .genStartLog, .progress 80,
         .tagStartLog, .tagFailLog, .partialStatus]
    ∧ SingleEvent.tagStartLog ∈ convert_single_chapter_thread true (Except.error e)
    ∧ SingleEvent.tagFailLog ∈ convert_single_chapter_thread true (Except.error e)
    ∧ SingleEvent.errorDialog ∉ convert_single_chapter_thread true (Except.error e)
    ∧ SingleEvent.genFailLog ∉ convert_single_chapter_thread true (Except.error e)
    ∧ SingleEvent.failStatus ∉ convert_single_chapter_thread true (Except.error e)
    ∧ SingleEvent.deleteFile ∉ convert_single_chapter_thread true (Except.error e) := by
  have hrun : convert_single_chapter_thread true (Except.error e) =
      [.startLog, .convertingStatus, .progress 0, .genStartLog, .progress 80,
       .tagStartLog, .tagFailLog, .partialStatus] := rfl
  rw [hrun]
  refine ⟨rfl, rfl, by decide, by decide, by decide, by decide, by decide, by decide⟩
